import Mathlib

/-!
# Verification of claude-code-mux core request plane

A shallow embedding, in Lean 4, of the routing, dispatch, translation and
streaming-transformation code of the claude-code-mux gateway, together with
theorems settling the claims about it.

Embedding conventions:
* Rust `String` is Lean `String`; `str::len` (a UTF-8 byte count) is embedded
  as `String.length` (a code-point count) — the two agree on ASCII data and no
  claim here depends on multi-byte code points.
* `serde_json::Value` fields that the embedded code only serializes are kept
  as the already-serialized `String` (e.g. the `input` of a `tool_use` block).
* `regex::Regex` is embedded as a record of the operations the code uses
  (first-match captures, replace-all-with-empty, capture expansion); routing
  regexes used only through `is_match` are embedded as `String → Bool`.
* `std::collections::HashMap` is embedded as an association list in insertion
  order (keys are kept unique by the same guards the source uses); HashMap
  iteration order is unspecified in Rust, the list order is one refinement.
* Fallible code returns `Option` / `Except`; async I/O wrappers are dropped,
  only the pure transformation logic they wrap is embedded.
-/

namespace CCMux

/-! ## ASCII case-insensitive equality (Rust `str::eq_ignore_ascii_case`) -/

/-- ASCII-lowercase a single character, as Rust's `u8::to_ascii_lowercase`
does byte-wise: only `A`–`Z` are mapped, everything else is untouched. -/
def asciiLower (c : Char) : Char :=
  if 'A' ≤ c ∧ c ≤ 'Z' then Char.ofNat (c.toNat + 32) else c

/-- Rust `str::eq_ignore_ascii_case`: equality after ASCII-lowercasing both
sides. -/
def eqIgnoreAsciiCase (a b : String) : Bool :=
  a.data.map asciiLower == b.data.map asciiLower

/-! ## String primitives

Character-list implementations of the string operations the source uses
(`starts_with`, `trim`, `is_empty`, first-occurrence split).  Rust's `trim`
removes Unicode whitespace; the embedding trims the ASCII whitespace
characters, which is all the embedded call sites encounter. -/

/-- ASCII whitespace. -/
def charIsWhitespace (c : Char) : Bool :=
  c == ' ' || c == '\t' || c == '\n' || c == '\r'

/-- Rust `str::starts_with`. -/
def strStartsWith (s p : String) : Bool :=
  s.data.take p.data.length == p.data

/-- Rust `str::trim`. -/
def strTrim (s : String) : String :=
  ⟨((s.data.dropWhile charIsWhitespace).reverse.dropWhile charIsWhitespace).reverse⟩

/-- Rust `str::is_empty`. -/
def strIsEmpty (s : String) : Bool :=
  s.data.isEmpty

/-- Split a character list at the first occurrence of `sep` (assumed
non-empty): the parts before and after it. -/
def splitOnceList (sep : List Char) : List Char → Option (List Char × List Char)
  | [] => none
  | c :: rest =>
      if (c :: rest).take sep.length == sep then some ([], (c :: rest).drop sep.length)
      else (splitOnceList sep rest).map (fun p => (c :: p.1, p.2))

/-! ## Data model (src/models/mod.rs) -/

/-- `ImageSource` from src/models/mod.rs. -/
structure ImageSource where
  type : String
  media_type : Option String
  data : Option String
  url : Option String
deriving DecidableEq, Repr

/-- A block inside a tool result (`ToolResultBlock`): the known `text` and
`image` cases and the `Unknown` passthrough. -/
inductive ToolResultBlock where
  | text (text : String)
  | image (source : ImageSource)
  | unknown
deriving DecidableEq, Repr

/-- `ToolResultContent`: a plain string or a block list. -/
inductive ToolResultContent where
  | text (s : String)
  | blocks (bs : List ToolResultBlock)
deriving DecidableEq, Repr

/-- Join a list of strings with a separator, as Rust `Vec::<String>::join`
does. -/
def joinSep (sep : String) : List String → String
  | [] => ""
  | [s] => s
  | s :: rest => s ++ sep ++ joinSep sep rest

/-- `ToolResultContent::to_string` from src/models/mod.rs: the plain string,
or the block texts (images become `[Image]`, unknown blocks `[Unknown]`)
joined with newlines. -/
def ToolResultContent.toStr : ToolResultContent → String
  | .text s => s
  | .blocks bs =>
      joinSep "\n" (bs.map fun b => match b with
        | .text t => t
        | .image _ => "[Image]"
        | .unknown => "[Unknown]")

/-- `ContentBlock`: the union of the known block variants (matched as a flat
enum by the adapters) plus the `Unknown` passthrough variant of
src/models/mod.rs.  The `thinking` variant carries the optional `"thinking"`
string field of the raw thinking JSON. -/
inductive ContentBlock where
  | text (text : String)
  | image (source : ImageSource)
  | toolUse (id name : String) (input : String)
  | toolResult (tool_use_id : String) (content : ToolResultContent)
  | thinking (thinking : Option String)
  | unknown
deriving DecidableEq, Repr

/-- `ContentBlock::as_text`: the text of a `text` block, `none` otherwise. -/
def ContentBlock.asText : ContentBlock → Option String
  | .text t => some t
  | _ => none

/-- `MessageContent`: plain string or block list. -/
inductive MessageContent where
  | text (s : String)
  | blocks (bs : List ContentBlock)
deriving DecidableEq, Repr

/-- `Message`. -/
structure Message where
  role : String
  content : MessageContent
deriving DecidableEq, Repr

/-- `SystemBlock` (the `cache_control` field is not consulted by any embedded
code path and is omitted). -/
structure SystemBlock where
  type : String
  text : String
deriving DecidableEq, Repr

/-- `SystemPrompt`: plain string or block list. -/
inductive SystemPrompt where
  | text (s : String)
  | blocks (bs : List SystemBlock)
deriving DecidableEq, Repr

/-- `Tool` from src/models/mod.rs (the `input_schema` JSON is kept as its
serialized string). -/
structure Tool where
  type : Option String
  name : Option String
  description : Option String
  input_schema : Option String
deriving DecidableEq, Repr

/-- `ThinkingConfig`. -/
structure ThinkingConfig where
  type : String
  budget_tokens : Option Nat
deriving DecidableEq, Repr

/-- `AnthropicRequest` (the scalar fields no embedded code consults —
temperature, top-p, top-k, stop sequences, stream, metadata — are omitted). -/
structure AnthropicRequest where
  model : String
  messages : List Message
  max_tokens : Nat
  thinking : Option ThinkingConfig
  system : Option SystemPrompt
  tools : Option (List Tool)
deriving DecidableEq, Repr

/-- `RouteType` from src/models/mod.rs. -/
inductive RouteType where
  | webSearch
  | promptRule
  | think
  | background
  | default
deriving DecidableEq, Repr

/-- `RouteDecision`. -/
structure RouteDecision where
  model_name : String
  route_type : RouteType
  matched_prompt : Option String
deriving DecidableEq, Repr

/-- `CountTokensRequest` (the `model` and `tools` fields are not consulted by
the estimation path and are omitted). -/
structure CountTokensRequest where
  messages : List Message
  system : Option SystemPrompt
deriving DecidableEq, Repr

/-! ## Provider errors (src/providers/error.rs) -/

/-- `ProviderError` (error payloads kept as their display strings). -/
inductive ProviderError where
  | httpError (msg : String)
  | serializationError (msg : String)
  | modelNotSupported (model : String)
  | apiError (status : Nat) (message : String)
  | configError (msg : String)
  | authError (msg : String)
deriving DecidableEq, Repr

/-- `ProviderError::is_client_error` from src/providers/error.rs lines 28-33:
true exactly for `ApiError` with `400 <= status < 500`. -/
def ProviderError.isClientError : ProviderError → Bool
  | .apiError status _ => 400 ≤ status && status < 500
  | _ => false

/-! ## The /v1/messages dispatch loop (src/server/mod.rs, `handle_messages`)

The loop over the sorted model mappings, lines 766-916.  Each attempted
binding is abstracted by its observable outcome: `none` when the provider
name is absent from the registry (the `else` branch at line 905), and
`some r` when the provider was called, `r` being the `Result` of
`send_message` / `send_message_stream`.  `R` stands for the successful
response (or stream). -/

/-- Result of walking the binding list. -/
inductive DispatchResult (R : Type) where
  | ok (r : R)
  | allFailed
deriving DecidableEq, Repr

/-- The fallback walk of `handle_messages` (src/server/mod.rs lines 766-916):
the first successful binding wins; on a missing provider or on *any*
`ProviderError` (the `Err(e)` arms at lines 871-875 and 898-902 only log and
`continue`) the loop moves on to the next binding; when the list is
exhausted the `AppError::ProviderError("All ... mappings failed")` path at
line 911 is taken. -/
def handleMappingsLoop {R : Type} : List (Option (Except ProviderError R)) → DispatchResult R
  | [] => .allFailed
  | some (.ok r) :: _ => .ok r
  | some (.error _) :: rest => handleMappingsLoop rest
  | none :: rest => handleMappingsLoop rest

/-! ## `supports_model` and the registry lookup
(src/providers/openai.rs lines 1624-1626,
src/providers/anthropic_compatible.rs lines 509-511,
src/providers/registry.rs lines 273-289) -/

/-- `OpenAIProvider::supports_model`: `self.models.iter().any(|m| m == model)`
— exact string equality. -/
def openaiSupportsModel (models : List String) (model : String) : Bool :=
  models.any fun m => m == model

/-- `AnthropicCompatibleProvider::supports_model`:
`self.models.iter().any(|m| m.eq_ignore_ascii_case(model))`. -/
def anthropicCompatibleSupportsModel (models : List String) (model : String) : Bool :=
  models.any fun m => eqIgnoreAsciiCase m model

/-- The provider registry: adapters keyed by name (the list order embeds the
`HashMap` iteration order) with each adapter abstracted by its
`supports_model` predicate, plus the logical-model → provider-name index. -/
structure ProviderRegistry where
  providers : List (String × (String → Bool))
  model_to_provider : List (String × String)

/-- Association-list lookup (first matching key), embedding `HashMap::get`. -/
def alistLookup {α : Type} (l : List (String × α)) (k : String) : Option α :=
  match l.find? (fun p => p.1 == k) with
  | some p => some p.2
  | none => none

/-- `ProviderRegistry::get_provider_for_model` (src/providers/registry.rs
lines 273-289), returning the chosen provider's name: consult the
logical-model index first (if it names a registered provider, return it —
if the named provider is missing, fall through); otherwise scan the
adapters in iteration order and return the first whose `supports_model`
accepts the model; else `ModelNotSupported`. -/
def getProviderForModel (reg : ProviderRegistry) (model : String) :
    Except ProviderError String :=
  let viaIndex : Option String :=
    match alistLookup reg.model_to_provider model with
    | some providerName =>
        if (alistLookup reg.providers providerName).isSome then some providerName else none
    | none => none
  match viaIndex with
  | some providerName => .ok providerName
  | none =>
      match reg.providers.find? (fun p => p.2 model) with
      | some p => .ok p.1
      | none => .error (.modelNotSupported model)

/-! ## Token-count estimation
(src/providers/anthropic_compatible.rs lines 398-441; the same estimation,
with an identical block walk, is src/providers/openai.rs lines 1373-1419) -/

/-- The per-block text the estimator counts: text blocks, stringified
tool-result contents and the `thinking` field of thinking blocks; images,
tool uses and unknown blocks fall to the `_ => None` arm. -/
def countedBlockText : ContentBlock → Option String
  | .text t => some t
  | .toolResult _ content => some content.toStr
  | .thinking t => t
  | _ => none

/-- The character count the estimator attributes to one message's content:
the plain text's length, or the length of the counted block texts joined
with `"\n"`. -/
def messageContentChars : MessageContent → Nat
  | .text t => t.length
  | .blocks bs => (joinSep "\n" (bs.filterMap countedBlockText)).length

/-- The non-Anthropic-native `count_tokens` estimation: total characters of
the system prompt (block texts joined with `"\n"`) plus each message's
content characters, divided by 4 (integer division). -/
def countTokensEstimate (req : CountTokensRequest) : Nat :=
  (req.messages.foldl (fun acc msg => acc + messageContentChars msg.content)
    (match req.system with
     | none => 0
     | some (.text t) => t.length
     | some (.blocks bs) => (joinSep "\n" (bs.map (·.text))).length)) / 4

/-- The character count stated by the spec's words: the plain sum of the
counted item lengths, with no separator characters.  (Kept to compare the
spec's formula with the source's, which joins with `"\n"`.) -/
def claimedCharCount (req : CountTokensRequest) : Nat :=
  (match req.system with
   | none => 0
   | some (.text t) => t.length
   | some (.blocks bs) => ((bs.map (·.text)).map String.length).sum)
  + (req.messages.map fun msg =>
      match msg.content with
      | .text t => t.length
      | .blocks bs => ((bs.filterMap countedBlockText).map String.length).sum).sum

/-- The length of `joinSep sep l` expressed without building the string:
the sum of the item lengths plus one separator between consecutive items. -/
def joinedLen (sepLen : Nat) (l : List String) : Nat :=
  (l.map String.length).sum + sepLen * (l.length - 1)

/-! ## Anthropic → OpenAI Chat Completions request translation
(src/providers/openai.rs, `transform_request`, the message loop at
lines 669-805) -/

/-- `OpenAIContentPart`. -/
inductive OpenAIContentPart where
  | text (text : String)
  | imageUrl (url : String)
deriving DecidableEq, Repr

/-- `OpenAIContent`: string or parts array. -/
inductive OpenAIContent where
  | str (s : String)
  | parts (ps : List OpenAIContentPart)
deriving DecidableEq, Repr

/-- `OpenAIToolCall` (the constant `type: "function"` is left implicit; the
arguments string is `serde_json::to_string(input)`, which in this embedding
is the `input` string itself). -/
structure OpenAIToolCall where
  id : String
  name : String
  arguments : String
deriving DecidableEq, Repr

/-- `OpenAIMessage` (the `reasoning` field, always `None` in the translation,
is omitted). -/
structure OpenAIMessage where
  role : String
  content : Option OpenAIContent
  tool_calls : Option (List OpenAIToolCall)
  tool_call_id : Option String
deriving DecidableEq, Repr

/-- The `(tool_use_id, stringified content)` pairs of the `tool_result`
blocks, in block order (the `tool_results` collection at lines 684-692). -/
def collectToolResults (blocks : List ContentBlock) : List (String × String) :=
  blocks.filterMap fun b => match b with
    | .toolResult id content => some (id, content.toStr)
    | _ => none

/-- The `tool_calls` extracted from `tool_use` blocks (lines 695-710). -/
def collectToolCalls (blocks : List ContentBlock) : List OpenAIToolCall :=
  blocks.filterMap fun b => match b with
    | .toolUse id name input => some ⟨id, name, input⟩
    | _ => none

/-- The content parts built from `text` and `image` blocks (lines 713-752);
tool uses, tool results and thinking blocks contribute nothing, and an
image whose source is neither base64 nor url-bearing is skipped. -/
def collectContentParts (blocks : List ContentBlock) : List OpenAIContentPart :=
  blocks.filterMap fun b => match b with
    | .text t => some (.text t)
    | .image source =>
        if source.type == "base64" then
          some (.imageUrl
            ("data:" ++ source.media_type.getD "image/png" ++ ";base64," ++ source.data.getD ""))
        else
          match source.url with
          | some url => some (.imageUrl url)
          | none => none
    | _ => none

/-- A separate `role:"tool"` message for one tool result (lines 770-778). -/
def mkToolMessage (p : String × String) : OpenAIMessage :=
  { role := "tool", content := some (.str p.2), tool_calls := none, tool_call_id := some p.1 }

/-- The OpenAI messages one Anthropic block-list message becomes
(lines 682-803): the tool-result messages first, then — when there is any
remaining content or tool call — the main message, with a single text part
collapsed to string form. -/
def transformBlocksMessage (role : String) (blocks : List ContentBlock) : List OpenAIMessage :=
  let toolResults := collectToolResults blocks
  let toolCalls := collectToolCalls blocks
  let contentParts := collectContentParts blocks
  let mainMessages : List OpenAIMessage :=
    if contentParts.isEmpty && toolCalls.isEmpty then []
    else
      let content : Option OpenAIContent :=
        match contentParts with
        | [] => none
        | [OpenAIContentPart.text t] => some (.str t)
        | ps => some (.parts ps)
      [{ role := role, content := content,
         tool_calls := if toolCalls.isEmpty then none else some toolCalls,
         tool_call_id := none }]
  toolResults.map mkToolMessage ++ mainMessages

/-- The message loop of `transform_request` (lines 669-805): a plain-text
message becomes one string-content message, a block-list message becomes
`transformBlocksMessage`. -/
def transformMessages (msgs : List Message) : List OpenAIMessage :=
  msgs.flatMap fun msg => match msg.content with
    | .text t => [{ role := msg.role, content := some (.str t),
                    tool_calls := none, tool_call_id := none }]
    | .blocks bs => transformBlocksMessage msg.role bs

/-! ## The OpenAI → Anthropic SSE streaming transformer
(src/providers/openai.rs: `StreamTransformState` lines 224-239,
`transform_openai_chunk_to_anthropic_sse` lines 986-1201, and the stream
finalization inside `send_message_stream`, lines 1566-1621).

Each `event: X\ndata: {...}\n\n` frame the source pushes onto its output
string is embedded as one constructor of `SseEvent`, carrying the payload
fields the frame serializes. -/

/-- The `content_block` payload of a `content_block_start` frame. -/
inductive BlockInfo where
  | text
  | toolUse (id name : String)
deriving DecidableEq, Repr

/-- The `delta` payload of a `content_block_delta` frame. -/
inductive DeltaInfo where
  | textDelta (text : String)
  | inputJsonDelta (partial_json : String)
deriving DecidableEq, Repr

/-- One downstream Anthropic SSE frame. -/
inductive SseEvent where
  | messageStart (messageId model : String)
  | blockStart (index : Nat) (block : BlockInfo)
  | blockDelta (index : Nat) (delta : DeltaInfo)
  | blockStop (index : Nat)
  | messageDelta (stop_reason : String) (stop_sequence : Option String)
  | messageStop
deriving DecidableEq, Repr

/-- One entry of an OpenAI `delta.tool_calls` array (a `serde_json::Value` in
the source; the fields below are the projections the transformer reads). -/
structure ToolCallDelta where
  index : Option Nat
  id : Option String
  name : Option String
  arguments : Option String
deriving DecidableEq, Repr

/-- `OpenAIStreamDelta` (the unused `role` field is omitted). -/
structure StreamDelta where
  content : Option String
  reasoning : Option String
  tool_calls : Option (List ToolCallDelta)
deriving DecidableEq, Repr

/-- `OpenAIStreamChoice` (the unused `index` field is omitted). -/
structure StreamChoice where
  delta : StreamDelta
  finish_reason : Option String
deriving DecidableEq, Repr

/-- `OpenAIStreamChunk` (the unused `id` and `created` fields are omitted). -/
structure StreamChunk where
  model : String
  choices : List StreamChoice
deriving DecidableEq, Repr

/-- `StreamTransformState` (lines 229-239); `tool_blocks` maps an OpenAI tool
index to its Anthropic block index. -/
structure StreamTransformState where
  message_started : Bool
  text_block_open : Bool
  tool_blocks : List (Nat × Nat)
  next_block_index : Nat
  stream_ended : Bool
deriving DecidableEq, Repr

/-- `StreamTransformState::default()`. -/
def StreamTransformState.init : StreamTransformState :=
  { message_started := false, text_block_open := false, tool_blocks := [],
    next_block_index := 0, stream_ended := false }

/-- `HashMap::get` on the tool-block map. -/
def toolBlocksLookup (l : List (Nat × Nat)) (k : Nat) : Option Nat :=
  match l.find? (fun p => p.1 == k) with
  | some p => some p.2
  | none => none

/-- The OpenAI → Anthropic `finish_reason` mapping (lines 1174-1179). -/
def mapFinishReason (reason : String) : String :=
  if reason == "stop" then "end_turn"
  else if reason == "length" then "max_tokens"
  else if reason == "tool_calls" then "tool_use"
  else "end_turn"

/-- The registration step of a `delta.tool_calls` entry (lines 1077-1111):
when the entry carries both an id and a name and its tool index is unseen,
register the index at the next free block index and emit a
`content_block_start`. -/
def registerToolCall (st : StreamTransformState) (tc : ToolCallDelta) :
    List SseEvent × StreamTransformState :=
  if tc.id.isSome && tc.name.isSome
     && (toolBlocksLookup st.tool_blocks (tc.index.getD 0)).isNone then
    ([SseEvent.blockStart st.next_block_index
        (.toolUse (tc.id.getD "tool_0") (tc.name.getD "unknown"))],
     { st with tool_blocks := st.tool_blocks ++ [(tc.index.getD 0, st.next_block_index)],
               next_block_index := st.next_block_index + 1 })
  else ([], st)

/-- The argument step of a `delta.tool_calls` entry (lines 1113-1139): on
non-empty arguments, emit an `input_json_delta` at the mapped block index —
registering the index on the fly (without a `content_block_start`) if it is
still unmapped. -/
def emitToolArgs (st : StreamTransformState) (tc : ToolCallDelta) :
    List SseEvent × StreamTransformState :=
  match tc.arguments with
  | some args =>
      if args ≠ "" then
        match toolBlocksLookup st.tool_blocks (tc.index.getD 0) with
        | some blockIndex =>
            ([SseEvent.blockDelta blockIndex (.inputJsonDelta args)], st)
        | none =>
            ([SseEvent.blockDelta st.next_block_index (.inputJsonDelta args)],
             { st with tool_blocks := st.tool_blocks ++ [(tc.index.getD 0, st.next_block_index)],
                       next_block_index := st.next_block_index + 1 })
      else ([], st)
  | none => ([], st)

/-- Processing of a single `delta.tool_calls` entry (lines 1071-1139): the
registration step, then the argument step. -/
def processToolCall (st : StreamTransformState) (tc : ToolCallDelta) :
    List SseEvent × StreamTransformState :=
  let (startEvents, st1) := registerToolCall st tc
  let (argEvents, st2) := emitToolArgs st1 tc
  (startEvents ++ argEvents, st2)

/-- Fold `processToolCall` over a `tool_calls` array. -/
def processToolCalls (st : StreamTransformState) : List ToolCallDelta →
    List SseEvent × StreamTransformState
  | [] => ([], st)
  | tc :: rest =>
      let (evs, st1) := processToolCall st tc
      let (evs', st2) := processToolCalls st1 rest
      (evs ++ evs', st2)

/-- The text delta a choice carries (`delta.content` or, failing that,
`delta.reasoning`; lines 1014-1015). -/
def textOf (c : StreamChoice) : Option String :=
  match c.delta.content with
  | some t => some t
  | none => c.delta.reasoning

/-- The text-content section of the choice processing (lines 1014-1048):
open the text block at index 0 on the first non-empty text, then emit a
`text_delta`. -/
def processText (st : StreamTransformState) (c : StreamChoice) :
    List SseEvent × StreamTransformState :=
  match textOf c with
  | some t =>
      if t ≠ "" then
        if !st.text_block_open then
          ([SseEvent.blockStart 0 .text, SseEvent.blockDelta 0 (.textDelta t)],
           { st with text_block_open := true, next_block_index := 1 })
        else
          ([SseEvent.blockDelta 0 (.textDelta t)], st)
      else ([], st)
  | none => ([], st)

/-- The tool-call section of the choice processing (lines 1060-1141): when a
`tool_calls` array is present, close the open text block first, then
process each entry. -/
def processToolSection (st : StreamTransformState) (c : StreamChoice) :
    List SseEvent × StreamTransformState :=
  match c.delta.tool_calls with
  | some tcs =>
      let (closeEvents, stc) :=
        if st.text_block_open then
          ([SseEvent.blockStop 0], { st with text_block_open := false })
        else ([], st)
      let (evs, std) := processToolCalls stc tcs
      (closeEvents ++ evs, std)
  | none => ([], st)

/-- The `finish_reason` section of the choice processing (lines 1151-1197):
close the text block if open, close every recorded tool block, emit the
`message_delta` and the `message_stop`.  Note the source sets `stream_ended`
but leaves `text_block_open` and `tool_blocks` untouched. -/
def processFinish (st : StreamTransformState) (c : StreamChoice) :
    List SseEvent × StreamTransformState :=
  match c.finish_reason with
  | some reason =>
      let stEnd := { st with stream_ended := true }
      let closeText := if stEnd.text_block_open then [SseEvent.blockStop 0] else []
      let closeTools := stEnd.tool_blocks.map fun p => SseEvent.blockStop p.2
      (closeText ++ closeTools ++
         [SseEvent.messageDelta (mapFinishReason reason) none, SseEvent.messageStop],
       stEnd)
  | none => ([], st)

/-- Processing of one choice of a chunk (lines 1012-1198): the text section,
then the tool-call section, then the `finish_reason` section. -/
def processChoice (st : StreamTransformState) (c : StreamChoice) :
    List SseEvent × StreamTransformState :=
  let (textEvents, st1) := processText st c
  let (toolEvents, st2) := processToolSection st1 c
  let (finishEvents, st3) := processFinish st2 c
  (textEvents ++ toolEvents ++ finishEvents, st3)

/-- Fold `processChoice` over a chunk's choices. -/
def processChoices (st : StreamTransformState) : List StreamChoice →
    List SseEvent × StreamTransformState
  | [] => ([], st)
  | c :: rest =>
      let (evs, st1) := processChoice st c
      let (evs', st2) := processChoices st1 rest
      (evs ++ evs', st2)

/-- `transform_openai_chunk_to_anthropic_sse` (lines 986-1201): emit
`message_start` on the first chunk, then process every choice. -/
def transformChunk (chunk : StreamChunk) (messageId : String)
    (st : StreamTransformState) : List SseEvent × StreamTransformState :=
  let startEvents : List SseEvent :=
    if !st.message_started then [SseEvent.messageStart messageId chunk.model] else []
  let st0 : StreamTransformState :=
    if !st.message_started then { st with message_started := true } else st
  (startEvents ++ (processChoices st0 chunk.choices).1,
   (processChoices st0 chunk.choices).2)

/-- Fold `transformChunk` over the parsed upstream chunks. -/
def transformChunks (messageId : String) (st : StreamTransformState) :
    List StreamChunk → List SseEvent × StreamTransformState
  | [] => ([], st)
  | ch :: rest =>
      let (evs, st1) := transformChunk ch messageId st
      let (evs', st2) := transformChunks messageId st1 rest
      (evs ++ evs', st2)

/-- The EOF finalization chained after the transformed stream
(src/providers/openai.rs lines 1566-1618): when `message_started` is set but
no `finish_reason` was ever seen, close the open text block, close every
recorded tool block, and emit `message_delta{stop_reason:"end_turn",
stop_sequence:null}` followed by `message_stop`; otherwise emit nothing. -/
def finalizeStream (st : StreamTransformState) : List SseEvent :=
  if st.message_started && !st.stream_ended then
    (if st.text_block_open then [SseEvent.blockStop 0] else []) ++
    st.tool_blocks.map (fun p => SseEvent.blockStop p.2) ++
    [SseEvent.messageDelta "end_turn" none, SseEvent.messageStop]
  else []

/-- The full downstream event sequence of `send_message_stream` for a given
list of successfully parsed upstream chunks: the per-chunk transformation
followed by the EOF finalization. -/
def fullStream (messageId : String) (chunks : List StreamChunk) : List SseEvent :=
  (transformChunks messageId StreamTransformState.init chunks).1 ++
    finalizeStream (transformChunks messageId StreamTransformState.init chunks).2

/-! ### The downstream event grammar

A scanner over the emitted event sequence.  With `sequential := true` it
checks the grammar of the claim,
`message_start (content_block_start content_block_delta* content_block_stop)*
message_delta message_stop` — content blocks one at a time — together with
the index side conditions (indices opened in strictly increasing order,
never reopened, the text block only at index 0 and only as the first block,
every delta and stop addressed to a currently open block, all blocks closed
before `message_delta`).  With `sequential := false` the one-block-at-a-time
requirement is dropped and several content blocks may be open at once, all
other conditions unchanged. -/

/-- Scanner state. -/
structure ScanState where
  started : Bool
  ended : Bool
  stopped : Bool
  openBlocks : List Nat
  lastOpened : Option Nat
deriving DecidableEq, Repr

/-- The scanner's initial state. -/
def ScanState.start : ScanState :=
  { started := false, ended := false, stopped := false, openBlocks := [], lastOpened := none }

/-- Strictly-increasing check against the most recently opened index. -/
def lastOpenedLt (o : Option Nat) (i : Nat) : Bool :=
  match o with
  | none => true
  | some j => decide (j < i)

/-- A text block may only open at index 0 and only as the first block. -/
def textStartOk (info : BlockInfo) (i : Nat) (o : Option Nat) : Bool :=
  match info with
  | .text => i == 0 && o == none
  | .toolUse _ _ => true

/-- One scanner step; `none` rejects the event. -/
def scanEvent (sequential : Bool) (ss : ScanState) : SseEvent → Option ScanState
  | .messageStart _ _ =>
      if !ss.started && !ss.stopped then some { ss with started := true } else none
  | .blockStart i info =>
      if ss.started && !ss.ended && !ss.stopped
         && (!sequential || ss.openBlocks.isEmpty)
         && lastOpenedLt ss.lastOpened i
         && textStartOk info i ss.lastOpened then
        some { ss with openBlocks := ss.openBlocks ++ [i], lastOpened := some i }
      else none
  | .blockDelta i _ =>
      if ss.started && !ss.ended && !ss.stopped && decide (i ∈ ss.openBlocks) then
        some ss
      else none
  | .blockStop i =>
      if ss.started && !ss.ended && !ss.stopped && decide (i ∈ ss.openBlocks) then
        some { ss with openBlocks := ss.openBlocks.erase i }
      else none
  | .messageDelta _ _ =>
      if ss.started && !ss.ended && !ss.stopped && ss.openBlocks.isEmpty then
        some { ss with ended := true }
      else none
  | .messageStop =>
      if ss.ended && !ss.stopped then some { ss with stopped := true } else none

/-- Run the scanner over an event list. -/
def scanEvents (sequential : Bool) (ss : ScanState) : List SseEvent → Option ScanState
  | [] => some ss
  | e :: rest =>
      match scanEvent sequential ss e with
      | some ss' => scanEvents sequential ss' rest
      | none => none

/-- Does the scanner accept the whole sequence, ending on `message_stop`? -/
def grammarAccepts (sequential : Bool) (evs : List SseEvent) : Bool :=
  match scanEvents sequential ScanState.start evs with
  | some ss => ss.stopped
  | none => false

/-- The claim's sequential grammar. -/
def seqGrammarOk (evs : List SseEvent) : Bool := grammarAccepts true evs

/-- The relaxed grammar allowing several open content blocks. -/
def streamWellFormed (evs : List SseEvent) : Bool := grammarAccepts false evs

/-! ### Well-behaved upstream sequences

The side conditions under which the transformer's output satisfies the
(relaxed) grammar: the stream carries no activity after a `finish_reason`;
a non-empty text delta only arrives while the text block is open or before
any block was ever opened; and a tool-call delta carrying arguments is for
an already-registered index, or registers its index in the same delta
(id and name present), or carries empty arguments. -/

/-- Condition on one `tool_calls` entry, at the state it is processed in. -/
def toolCallOk (st : StreamTransformState) (tc : ToolCallDelta) : Bool :=
  (toolBlocksLookup st.tool_blocks (tc.index.getD 0)).isSome
  || (tc.id.isSome && tc.name.isSome)
  || tc.arguments.getD "" == ""

/-- Fold `toolCallOk` through a `tool_calls` array. -/
def toolCallsOk (st : StreamTransformState) : List ToolCallDelta → Bool
  | [] => true
  | tc :: rest => toolCallOk st tc && toolCallsOk (processToolCall st tc).2 rest

/-- Condition on one choice, at the state it is processed in. -/
def choiceOk (st : StreamTransformState) (c : StreamChoice) : Bool :=
  !st.stream_ended
  && (match textOf c with
      | some t => t == "" || st.text_block_open || st.next_block_index == 0
      | none => true)
  && (match c.delta.tool_calls with
      | some tcs => toolCallsOk { (processText st c).2 with text_block_open := false } tcs
      | none => true)

/-- Fold `choiceOk` through a chunk's choices. -/
def choicesOk (st : StreamTransformState) : List StreamChoice → Bool
  | [] => true
  | c :: rest => choiceOk st c && choicesOk (processChoice st c).2 rest

/-- Fold the conditions through the chunk list. -/
def chunksOk (st : StreamTransformState) : List StreamChunk → Bool
  | [] => true
  | ch :: rest =>
      let st0 := if !st.message_started then { st with message_started := true } else st
      choicesOk st0 ch.choices && chunksOk (processChoices st0 ch.choices).2 rest

/-- A well-behaved upstream chunk sequence (from the transformer's initial
state). -/
def goodChunks (chunks : List StreamChunk) : Bool :=
  chunksOk StreamTransformState.init chunks

/-- A well-behaved upstream fixture: a text chunk followed by a
`finish_reason` chunk. -/
def fixtureStreamChunks : List StreamChunk :=
  [⟨"m", [⟨⟨some "hello", none, none⟩, none⟩]⟩,
   ⟨"m", [⟨⟨none, none, none⟩, some "stop"⟩]⟩]

/-- The invariant tying the transformer state to the scanner state along a
well-behaved stream.  The `blocks` and `lastIdx` clauses only matter while
the stream has not ended (after `finish_reason` the source leaves
`text_block_open` and `tool_blocks` stale, but no further events follow). -/
structure StreamInv (ts : StreamTransformState) (ss : ScanState) : Prop where
  started : ss.started = ts.message_started
  ended : ss.ended = ts.stream_ended
  stopped : ss.stopped = ts.stream_ended
  blocks : ts.stream_ended = false →
    ss.openBlocks = (if ts.text_block_open then [0] else []) ++ ts.tool_blocks.map (·.2)
  lastIdx : ts.stream_ended = false →
    (ts.next_block_index = 0 ∧ ss.lastOpened = none) ∨
    (1 ≤ ts.next_block_index ∧ ss.lastOpened = some (ts.next_block_index - 1))
  bound : ∀ p ∈ ts.tool_blocks, p.2 < ts.next_block_index
  textNext : ts.text_block_open = true → 1 ≤ ts.next_block_index
  toolPos : ts.text_block_open = true → ∀ p ∈ ts.tool_blocks, 1 ≤ p.2

/-! ## The router (src/router/mod.rs)

A compiled `regex::Regex` is embedded as the record of operations the router
invokes on it: `capturesFn` returns the capture data of the first match
(`none` when there is no match, so `is_match s = (capturesFn s).isSome`);
`replaceAllFn` is `replace_all` with the empty replacement (the only
replacement the router ever uses); `expandFn` is `Captures::expand` applied
to a template.  The `auto_map_regex` and `background_regex`, used only
through `is_match`, are embedded directly as `String → Bool`. -/

/-- The capture data of one regex match: the matched substring (group 0) and
the capture groups. -/
structure CapturesModel where
  whole : String
  groups : List (Option String)
deriving DecidableEq, Repr

/-- Abstract compiled regex (see the section comment). -/
structure RegexModel where
  capturesFn : String → Option CapturesModel
  replaceAllFn : String → String
  expandFn : String → CapturesModel → String

/-- `CompiledPromptRule` (src/router/mod.rs lines 19-25). -/
structure CompiledPromptRule where
  regex : RegexModel
  model : String
  strip_match : Bool
  is_dynamic : Bool

/-- The `router` table of `AppConfig` (the fields `route` consults). -/
structure RouterConfig where
  default : String
  background : Option String
  think : Option String
  websearch : Option String

/-- The compiled `Router` (src/router/mod.rs lines 29-34); `modelNames` are
the names of the configured `[[models]]` entries, consulted by the subagent
tag resolution. -/
structure Router where
  rcfg : RouterConfig
  modelNames : List String
  autoMapMatch : Option (String → Bool)
  backgroundMatch : Option (String → Bool)
  promptRules : List CompiledPromptRule

/-- `has_web_search_tool` (lines 237-248): some tool's `type` starts with
`"web_search"`. -/
def hasWebSearchTool (req : AnthropicRequest) : Bool :=
  match req.tools with
  | some tools =>
      tools.any fun tool =>
        match tool.type with
        | some t => strStartsWith t "web_search"
        | none => false
  | none => false

/-- `is_plan_mode` (lines 251-257). -/
def isPlanMode (req : AnthropicRequest) : Bool :=
  match req.thinking with
  | some t => t.type == "enabled"
  | none => false

/-- `is_background_task` (lines 261-267). -/
def Router.isBackgroundTask (r : Router) (model : String) : Bool :=
  match r.backgroundMatch with
  | some f => f model
  | none => false

/-- Does a trimmed text start with `<system-reminder>`? (the exclusion the
prompt-rule text extraction applies). -/
def isSystemReminderText (s : String) : Bool :=
  strStartsWith (strTrim s) "<system-reminder>"

/-- An assistant message with no `tool_use` block ends the previous turn
(lines 411-435). -/
def msgEndsTurn (m : Message) : Bool :=
  m.role == "assistant" &&
    !(match m.content with
      | .text _ => false
      | .blocks bs => bs.any fun b => match b with
          | .toolUse _ _ _ => true
          | _ => false)

/-- The greatest index of a turn-ending assistant message, if any. -/
def lastTurnEndIndex : List Message → Option Nat
  | [] => none
  | m :: rest =>
      match lastTurnEndIndex rest with
      | some i => some (i + 1)
      | none => if msgEndsTurn m then some 0 else none

/-- `find_turn_start_index` (lines 402-440): one past the most recent
turn-ending assistant message, or 0. -/
def findTurnStartIndex (msgs : List Message) : Nat :=
  match lastTurnEndIndex msgs with
  | some i => i + 1
  | none => 0

/-- The text content the turn-starting search attributes to a message
(lines 452-474): a plain text that is neither blank nor a system reminder,
or the non-reminder text blocks joined with spaces when that join is not
blank. -/
def textContentOfMsg (m : Message) : Option String :=
  match m.content with
  | .text t =>
      if !strIsEmpty (strTrim t) && !isSystemReminderText t then some t else none
  | .blocks bs =>
      let t := joinSep " " ((bs.filterMap ContentBlock.asText).filter fun s => !isSystemReminderText s)
      if strIsEmpty (strTrim t) then none else some t

/-- `extract_last_user_message` (lines 360-392).  Note the asymmetry of the
source: the plain-text case rejects only system reminders, the block case
rejects only an empty join. -/
def extractLastUserMessage (msgs : List Message) : Option String :=
  match msgs.reverse.find? (fun m => m.role == "user") with
  | none => none
  | some m =>
      match m.content with
      | .text t => if isSystemReminderText t then none else some t
      | .blocks bs =>
          let t := joinSep " " ((bs.filterMap ContentBlock.asText).filter fun s => !isSystemReminderText s)
          if strIsEmpty t then none else some t

/-- The search of `extract_turn_starting_user_message` over the messages from
the turn start on: the first user message with text content. -/
def extractFromTurn : List Message → Option String
  | [] => none
  | m :: rest =>
      if m.role == "user" then
        match textContentOfMsg m with
        | some t => some t
        | none => extractFromTurn rest
      else extractFromTurn rest

/-- `extract_turn_starting_user_message` (lines 442-491), with the fallback
to the last user message. -/
def extractTurnStartingUserMessage (msgs : List Message) : Option String :=
  match extractFromTurn (msgs.drop (findTurnStartIndex msgs)) with
  | some t => some t
  | none => extractLastUserMessage msgs

/-- The `has_text` test of `strip_match_from_turn_starting_message`
(lines 504-514). -/
def msgHasText (m : Message) : Bool :=
  match m.content with
  | .text t => !strIsEmpty (strTrim t) && !isSystemReminderText t
  | .blocks bs =>
      bs.any fun b => match b.asText with
        | some s => !strIsEmpty (strTrim s) && !isSystemReminderText s
        | none => false

/-- Apply `replace_all` to every text component of a message (the mutation
both strip functions perform). -/
def stripMsgContent (replaceAll : String → String) (m : Message) : Message :=
  { m with content :=
      match m.content with
      | .text t => .text (replaceAll t)
      | .blocks bs => .blocks (bs.map fun b => match b with
          | .text t => .text (replaceAll t)
          | other => other) }

/-- The search of `strip_match_from_turn_starting_message` over the suffix
from the turn start: strip the first user message that has text;
`none` when no such message exists (the caller then falls back). -/
def stripFromTurn (replaceAll : String → String) : List Message → Option (List Message)
  | [] => none
  | m :: rest =>
      if m.role == "user" && msgHasText m then
        some (stripMsgContent replaceAll m :: rest)
      else
        (stripFromTurn replaceAll rest).map (m :: ·)

/-- `strip_match_from_last_user_message` (lines 548-575): strip the last user
message, if any. -/
def stripLastUser (replaceAll : String → String) (msgs : List Message) : List Message :=
  let rec go : List Message → List Message
    | [] => []
    | m :: rest =>
        if m.role == "user" then stripMsgContent replaceAll m :: rest
        else m :: go rest
  (go msgs.reverse).reverse

/-- `strip_match_from_turn_starting_message` (lines 494-545). -/
def stripMatchFromTurnStartingMessage (replaceAll : String → String)
    (msgs : List Message) : List Message :=
  let ts := findTurnStartIndex msgs
  match stripFromTurn replaceAll (msgs.drop ts) with
  | some suffix => msgs.take ts ++ suffix
  | none => stripLastUser replaceAll msgs

/-- The rule loop of `match_prompt_rule` (lines 318-346): first matching rule
wins; the result carries the (possibly capture-expanded) model name, the
matched substring, and the (possibly stripped) messages. -/
def matchRules (userContent : String) (msgs : List Message) :
    List CompiledPromptRule → Option (String × String × List Message)
  | [] => none
  | rule :: rest =>
      match rule.regex.capturesFn userContent with
      | some caps =>
          let matchedText := caps.whole
          let modelName :=
            if rule.is_dynamic then rule.regex.expandFn rule.model caps else rule.model
          let msgs' :=
            if rule.strip_match then
              stripMatchFromTurnStartingMessage rule.regex.replaceAllFn msgs
            else msgs
          some (modelName, matchedText, msgs')
      | none => matchRules userContent msgs rest

/-- `match_prompt_rule` (lines 276-349). -/
def matchPromptRule (r : Router) (msgs : List Message) :
    Option (String × String × List Message) :=
  if r.promptRules.isEmpty then none
  else
    match extractTurnStartingUserMessage msgs with
    | none => none
    | some userContent => matchRules userContent msgs r.promptRules

/-! ### Subagent tag extraction (lines 577-625)

The literal regex `<CCM-SUBAGENT-MODEL>(.*?)</CCM-SUBAGENT-MODEL>` is
embedded by substring splitting: the first match starts at the first opening
tag and ends at the first closing tag after it, and `replace_all` removes
every such non-overlapping span left to right.  (The regex crate's `.` does
not cross a newline; the embedding ignores that corner, which no claim
touches.) -/

/-- The subagent opening tag. -/
def subagentOpenTag : String := "<CCM-SUBAGENT-MODEL>"

/-- The subagent closing tag. -/
def subagentCloseTag : String := "</CCM-SUBAGENT-MODEL>"

/-- Split at the first occurrence of `sep`: the part before it and the part
after it, or `none` when `sep` does not occur. -/
def splitOnce (s sep : String) : Option (String × String) :=
  (splitOnceList sep.data s.data).map fun p => (⟨p.1⟩, ⟨p.2⟩)

/-- Rust `str::contains` for a non-empty needle. -/
def containsSubstr (s sub : String) : Bool :=
  (splitOnce s sub).isSome

/-- Group 1 of the first tag match. -/
def extractSubagentTagValue (s : String) : Option String :=
  match splitOnce s subagentOpenTag with
  | none => none
  | some (_, tail) => (splitOnce tail subagentCloseTag).map (·.1)

/-- `replace_all` of the tag regex with the empty string (fuelled recursion;
each removed span is non-empty, so the string length bounds the number of
matches). -/
def removeSubagentTagsAux : Nat → String → String
  | 0, s => s
  | fuel + 1, s =>
      match splitOnce s subagentOpenTag with
      | none => s
      | some (pre, tail) =>
          match splitOnce tail subagentCloseTag with
          | none => s
          | some (_, after) => pre ++ removeSubagentTagsAux fuel after

/-- See `removeSubagentTagsAux`. -/
def removeSubagentTags (s : String) : String :=
  removeSubagentTagsAux s.length s

/-- `extract_subagent_model` (lines 583-625): requires a block system prompt
with at least two blocks and the tag in the second block; on a match,
removes every tag from that block and resolves the tag value against the
configured model names (case-insensitively), falling back to the literal
value.  Returns the extracted model (if any) and the updated system
prompt. -/
def extractSubagentModel (modelNames : List String) (sys : Option SystemPrompt) :
    Option String × Option SystemPrompt :=
  match sys with
  | some (.blocks bs) =>
      if bs.length < 2 then (none, sys)
      else
        match bs.get? 1 with
        | some b1 =>
            if !containsSubstr b1.text subagentOpenTag then (none, sys)
            else
              match extractSubagentTagValue b1.text with
              | some tagValue =>
                  let newBlocks := bs.set 1 { b1 with text := removeSubagentTags b1.text }
                  let resolved :=
                    match modelNames.find? (fun m => eqIgnoreAsciiCase m tagValue) with
                    | some m => m
                    | none => tagValue
                  (some resolved, some (.blocks newBlocks))
              | none => (none, sys)
        | none => (none, sys)
  | _ => (none, sys)

/-- The auto-mapping pre-pass of `route` (lines 154-162). -/
def autoMapStep (r : Router) (req : AnthropicRequest) : AnthropicRequest :=
  match r.autoMapMatch with
  | some f => if f req.model then { req with model := r.rcfg.default } else req
  | none => req

/-- `Router::route` (lines 150-233): auto-map the model, then try, in order,
WebSearch, Background (against the pre-auto-map model), Subagent, Prompt
Rules, Think, Default.  Returns the decision together with the (possibly
mutated) request. -/
def route (r : Router) (req0 : AnthropicRequest) : RouteDecision × AnthropicRequest :=
  let originalModel := req0.model
  let req := autoMapStep r req0
  -- 1. WebSearch
  let wsHit : Option String :=
    match r.rcfg.websearch with
    | some w => if hasWebSearchTool req then some w else none
    | none => none
  match wsHit with
  | some w => (⟨w, .webSearch, none⟩, req)
  | none =>
    -- 2. Background (checked against the original model name)
    let bgHit : Option String :=
      match r.rcfg.background with
      | some b => if r.isBackgroundTask originalModel then some b else none
      | none => none
    match bgHit with
    | some b => (⟨b, .background, none⟩, req)
    | none =>
      -- 3. Subagent tag
      match extractSubagentModel r.modelNames req.system with
      | (some model, sys') => (⟨model, .default, none⟩, { req with system := sys' })
      | (none, _) =>
        -- 4. Prompt rules (the subagent step leaves the request unchanged
        -- when it extracts nothing)
        match matchPromptRule r req.messages with
        | some (model, matchedText, msgs') =>
            (⟨model, .promptRule, some matchedText⟩, { req with messages := msgs' })
        | none =>
          -- 5. Think
          let thinkHit : Option String :=
            match r.rcfg.think with
            | some t => if isPlanMode req then some t else none
            | none => none
          match thinkHit with
          | some t => (⟨t, .think, none⟩, req)
          | none => (⟨req.model, .default, none⟩, req)

/-! ### Concrete router fixtures used to instantiate the prompt-rule theorem -/

/-- A concrete dynamic stripping rule: its abstract regex matches the one
string `"CCM-MODEL:deepseek-v3 write a function"` with whole match
`"CCM-MODEL:deepseek-v3"` and capture group 1 `"deepseek-v3"`; removing the
match leaves `" write a function"`; expanding the template `"$1"` yields the
group. -/
def fixtureDynamicRule : CompiledPromptRule :=
  { regex :=
      { capturesFn := fun s =>
          if s == "CCM-MODEL:deepseek-v3 write a function" then
            some ⟨"CCM-MODEL:deepseek-v3", [some "deepseek-v3"]⟩
          else none,
        replaceAllFn := fun _ => " write a function",
        expandFn := fun _ c => (c.groups.headD none).getD "" },
    model := "$1", strip_match := true, is_dynamic := true }

/-- A router holding only `fixtureDynamicRule`. -/
def fixtureRuleRouter : Router :=
  { rcfg := { default := "def.m", background := none, think := none, websearch := none },
    modelNames := [], autoMapMatch := none, backgroundMatch := none,
    promptRules := [fixtureDynamicRule] }

/-- A one-message request whose user text matches `fixtureDynamicRule`. -/
def fixtureRuleRequest : AnthropicRequest :=
  { model := "m", messages := [⟨"user", .text "CCM-MODEL:deepseek-v3 write a function"⟩],
    max_tokens := 1, thinking := none, system := none, tools := none }

/-! # Theorems -/

/-! ## C1 — client errors and the fallback walk -/

/-- C1 (code bug): the claim says a client error (`is_client_error() = true`,
here a 400 `ApiError`) returned by the first of two bindings is returned to
the client immediately, with no further binding tried.  The dispatch loop of
`handle_messages` (src/server/mod.rs lines 766-916) never consults
`is_client_error`: its error arms log and `continue` unconditionally, so on
this input it goes on to the second binding and returns that binding's
success. -/
theorem dispatch_continues_after_client_error :
    ProviderError.isClientError (ProviderError.apiError 400 "invalid request") = true ∧
    handleMappingsLoop (R := String)
        [some (Except.error (ProviderError.apiError 400 "invalid request")),
         some (Except.ok "second-binding-response")]
      = DispatchResult.ok "second-binding-response" := by
  exact ⟨by decide, rfl⟩

/-! ## C7 — EOF finalization -/

/-- C7: when the upstream stream reaches EOF with `message_started = true`
and `stream_ended = false`, the finalization appends exactly a
`content_block_stop` for the open text block (if any), a
`content_block_stop` for each recorded tool block, a `message_delta` with
stop reason `"end_turn"` and null stop sequence, and a `message_stop`; and
it appends nothing when `message_started` is false or `stream_ended` is
true. -/
theorem finalize_termination_sequence (st : StreamTransformState) :
    (st.message_started = true → st.stream_ended = false →
      finalizeStream st =
        (if st.text_block_open then [SseEvent.blockStop 0] else []) ++
        st.tool_blocks.map (fun p => SseEvent.blockStop p.2) ++
        [SseEvent.messageDelta "end_turn" none, SseEvent.messageStop]) ∧
    (st.message_started = false ∨ st.stream_ended = true → finalizeStream st = []) := by
  constructor
  · intro h1 h2
    simp [finalizeStream, h1, h2]
  · intro h
    rcases h with h | h <;> simp [finalizeStream, h]

/-- Witness for C7 at concrete states: one live state with an open text block
and one recorded tool block, one already-ended state. -/
theorem finalize_termination_sequence_witness :
    finalizeStream ⟨true, true, [(0, 1)], 2, false⟩ =
      [SseEvent.blockStop 0, SseEvent.blockStop 1,
       SseEvent.messageDelta "end_turn" none, SseEvent.messageStop] ∧
    finalizeStream ⟨true, true, [(0, 1)], 2, true⟩ = [] := by
  constructor
  · have h := (finalize_termination_sequence ⟨true, true, [(0, 1)], 2, false⟩).1 rfl rfl
    simpa using h
  · exact (finalize_termination_sequence ⟨true, true, [(0, 1)], 2, true⟩).2 (Or.inr rfl)

/-! ## C10 — argument fragments for an unregistered tool index -/

/-- C10: a tool-call delta carrying non-empty `function.arguments` for an
OpenAI tool index that was never registered (and that does not register it
either, lacking an id or a name) makes the transformer assign the next free
block index to that tool index, record the mapping, and emit exactly one
`content_block_delta` with `input_json_delta` at that block index — no
`content_block_start` is emitted and the fragment is not dropped. -/
theorem unregistered_tool_args_emit_delta
    (st : StreamTransformState) (tc : ToolCallDelta) (i : Nat) (a : String)
    (hidx : tc.index = some i)
    (hlookup : toolBlocksLookup st.tool_blocks i = none)
    (hnoreg : tc.id.isSome = false ∨ tc.name.isSome = false)
    (hargs : tc.arguments = some a) (hne : a ≠ "") :
    processToolCall st tc =
      ([SseEvent.blockDelta st.next_block_index (.inputJsonDelta a)],
       { st with tool_blocks := st.tool_blocks ++ [(i, st.next_block_index)],
                 next_block_index := st.next_block_index + 1 }) := by
  unfold processToolCall registerToolCall emitToolArgs
  rcases hnoreg with h | h <;> simp [hidx, h, hlookup, hargs, hne]

/-- Witness for C10 at a concrete state and delta. -/
theorem unregistered_tool_args_emit_delta_witness :
    processToolCall ⟨true, true, [(0, 0)], 1, false⟩ ⟨some 1, none, none, some "argfrag"⟩ =
      ([SseEvent.blockDelta 1 (.inputJsonDelta "argfrag")],
       ⟨true, true, [(0, 0), (1, 1)], 2, false⟩) := by
  exact unregistered_tool_args_emit_delta ⟨true, true, [(0, 0)], 1, false⟩
    ⟨some 1, none, none, some "argfrag"⟩ 1 "argfrag" rfl rfl (Or.inl rfl) rfl (by decide)

/-! ## C8 — `supports_model` case sensitivity -/

set_option maxRecDepth 8192 in
/-- C8 (counterexample): the claim says every adapter's `supports_model` is
case-insensitive.  The OpenAI adapter's (src/providers/openai.rs line 1625)
compares with `==`: on the list `["gpt-4"]` it rejects `"GPT-4"`, even
though the two are equal under ASCII case-insensitive comparison (and the
Anthropic-compatible adapter accepts the same pair). -/
theorem supports_model_case_counterexample :
    openaiSupportsModel ["gpt-4"] "GPT-4" = false ∧
    eqIgnoreAsciiCase "gpt-4" "GPT-4" = true ∧
    anthropicCompatibleSupportsModel ["gpt-4"] "GPT-4" = true := by
  decide

/-- C8 (amended): the Anthropic-compatible adapter's `supports_model` is
ASCII case-insensitive membership; the OpenAI adapter's is exact membership;
and when the logical-model index misses, `get_provider_for_model` returns
the first adapter (in registry iteration order) whose `supports_model`
accepts the requested model, or `ModelNotSupported` when none does. -/
theorem supports_model_amended :
    (∀ (models : List String) (m : String),
        anthropicCompatibleSupportsModel models m = true ↔
          ∃ x ∈ models, eqIgnoreAsciiCase x m = true) ∧
    (∀ (models : List String) (m : String),
        openaiSupportsModel models m = true ↔ m ∈ models) ∧
    (∀ (reg : ProviderRegistry) (model : String),
        alistLookup reg.model_to_provider model = none →
        getProviderForModel reg model =
          match reg.providers.find? (fun p => p.2 model) with
          | some p => .ok p.1
          | none => .error (.modelNotSupported model)) := by
  refine ⟨?_, ?_, ?_⟩
  · intro models m
    simp [anthropicCompatibleSupportsModel, List.any_eq_true]
  · intro models m
    simp [openaiSupportsModel, List.any_eq_true, beq_iff_eq]
  · intro reg model h
    unfold getProviderForModel
    simp only [h]

/-- Witness for C8 (amended) at concrete adapters and a one-provider
registry whose model index is empty. -/
theorem supports_model_amended_witness :
    anthropicCompatibleSupportsModel ["GPT-4o"] "gpt-4O" = true ∧
    openaiSupportsModel ["gpt-4"] "gpt-4" = true ∧
    getProviderForModel ⟨[("p1", fun m => m == "gpt-4")], []⟩ "gpt-4" = .ok "p1" := by
  refine ⟨?_, ?_, ?_⟩
  · exact (supports_model_amended.1 ["GPT-4o"] "gpt-4O").mpr ⟨"GPT-4o", by decide, by decide⟩
  · exact (supports_model_amended.2.1 ["gpt-4"] "gpt-4").mpr (by simp)
  · have h := supports_model_amended.2.2 ⟨[("p1", fun m => m == "gpt-4")], []⟩ "gpt-4" rfl
    simpa using h

/-! ## C9 — the token-count estimate -/

/-- C9 (counterexample): the claim says the estimate is
`⌊(sum of counted item lengths) / 4⌋`.  The source joins the counted block
texts of a message with `"\n"`, so each separator adds one character: on a
message with text blocks `"aaaa"` and `"abc"` the source computes
`⌊8/4⌋ = 2` while the claim's formula gives `⌊7/4⌋ = 1`. -/
theorem count_tokens_counterexample :
    countTokensEstimate ⟨[⟨"user", .blocks [.text "aaaa", .text "abc"]⟩], none⟩ = 2 ∧
    claimedCharCount ⟨[⟨"user", .blocks [.text "aaaa", .text "abc"]⟩], none⟩ / 4 = 1 := by
  constructor <;> rfl

/-- Helper: the length of a `"\n"`-join (or any join) is the sum of the item
lengths plus one separator length between consecutive items. -/
theorem joinSep_length (sep : String) (l : List String) :
    (joinSep sep l).length = joinedLen sep.length l := by
  induction l with
  | nil => simp [joinSep, joinedLen]
  | cons s rest ih =>
    cases rest with
    | nil => simp [joinSep, joinedLen]
    | cons x t =>
      simp only [joinSep, String.length_append, joinedLen, List.map_cons, List.sum_cons,
        List.length_cons, Nat.add_sub_cancel] at ih ⊢
      rw [ih]
      ring

/-- Helper: folding `+ f x` from an initial accumulator is the accumulator
plus the mapped sum. -/
theorem foldl_add_eq_sum {α : Type} (f : α → Nat) (l : List α) (n : Nat) :
    l.foldl (fun acc x => acc + f x) n = n + (l.map f).sum := by
  induction l generalizing n with
  | nil => simp
  | cons x t ih => simp [ih, Nat.add_assoc]

/-- C9 (amended): the estimate is `⌊total/4⌋` where `total` counts the
system text and, per message, the counted item lengths (text blocks,
stringified tool-result contents, thinking text) **plus one newline
separator between consecutive counted blocks of a block-list message, and
between consecutive system blocks**. -/
theorem count_tokens_amended (req : CountTokensRequest) :
    countTokensEstimate req =
      ((match req.system with
        | none => 0
        | some (.text t) => t.length
        | some (.blocks bs) => joinedLen 1 (bs.map (·.text)))
       + (req.messages.map fun msg =>
            match msg.content with
            | .text t => t.length
            | .blocks bs => joinedLen 1 (bs.filterMap countedBlockText)).sum) / 4 := by
  have hmsgs : (req.messages.map fun msg => messageContentChars msg.content) =
      req.messages.map (fun msg =>
        match msg.content with
        | .text t => t.length
        | .blocks bs => joinedLen 1 (bs.filterMap countedBlockText)) := by
    apply List.map_congr_left
    intro msg _
    cases h : msg.content with
    | text t => simp [messageContentChars]
    | blocks bs =>
      simpa [messageContentChars] using joinSep_length "\n" (bs.filterMap countedBlockText)
  have hsys : (match req.system with
      | none => 0
      | some (.text t) => t.length
      | some (.blocks bs) => (joinSep "\n" (bs.map (fun b : SystemBlock => b.text))).length) =
      (match req.system with
      | none => (0 : Nat)
      | some (.text t) => t.length
      | some (.blocks bs) => joinedLen 1 (bs.map (fun b : SystemBlock => b.text))) := by
    cases hs : req.system with
    | none => rfl
    | some sys =>
      cases sys with
      | text t => rfl
      | blocks bs => exact joinSep_length "\n" (bs.map (fun b : SystemBlock => b.text))
  unfold countTokensEstimate
  rw [foldl_add_eq_sum, hsys, hmsgs]

/-! ## C6 — tool-result ordering in the OpenAI translation -/

/-- C6: for every block-list message, each `tool_result` block becomes its
own `role:"tool"` message carrying the `tool_use_id` as `tool_call_id` and
the stringified content, in block order, and all of them precede the at most
one remaining message, which carries the original role and no
`tool_call_id`; and the fixture `[tool_result(t1,"42"), tool_result(t2,"hi"),
text("thanks")]` yields exactly `tool(t1,"42"), tool(t2,"hi"),
user("thanks")`. -/
theorem tool_results_precede_content :
    (∀ (role : String) (blocks : List ContentBlock),
      ∃ rest, transformBlocksMessage role blocks =
          (collectToolResults blocks).map (fun p =>
            { role := "tool", content := some (.str p.2),
              tool_calls := none, tool_call_id := some p.1 }) ++ rest ∧
        (rest = [] ∨ ∃ m, rest = [m] ∧ m.role = role ∧ m.tool_call_id = none)) ∧
    transformMessages
        [⟨"user", .blocks [.toolResult "t1" (.text "42"), .toolResult "t2" (.text "hi"),
                           .text "thanks"]⟩]
      = [⟨"tool", some (.str "42"), none, some "t1"⟩,
         ⟨"tool", some (.str "hi"), none, some "t2"⟩,
         ⟨"user", some (.str "thanks"), none, none⟩] := by
  constructor
  · intro role blocks
    refine ⟨_, rfl, ?_⟩
    by_cases h : ((collectContentParts blocks).isEmpty && (collectToolCalls blocks).isEmpty) = true
    · left
      simp [h]
    · right
      refine ⟨{ role := role,
                content := match collectContentParts blocks with
                  | [] => none
                  | [OpenAIContentPart.text t] => some (.str t)
                  | ps => some (.parts ps),
                tool_calls := if (collectToolCalls blocks).isEmpty then none
                  else some (collectToolCalls blocks),
                tool_call_id := none }, ?_, rfl, rfl⟩
      simp [h]
  · rfl

/-! ## C3 — web-search routing -/

/-- Helper: the auto-mapping pre-pass only rewrites the model. -/
theorem autoMapStep_fields (r : Router) (req : AnthropicRequest) :
    (autoMapStep r req).tools = req.tools ∧
    (autoMapStep r req).system = req.system ∧
    (autoMapStep r req).messages = req.messages ∧
    (autoMapStep r req).thinking = req.thinking := by
  unfold autoMapStep
  cases r.autoMapMatch with
  | none => exact ⟨rfl, rfl, rfl, rfl⟩
  | some f =>
    by_cases h : f req.model = true
    · simp [h]
    · simp [h]

/-- Helper: `has_web_search_tool` only reads the tools, so it is unchanged by
the auto-mapping pre-pass. -/
theorem hasWebSearchTool_autoMapStep (r : Router) (req : AnthropicRequest) :
    hasWebSearchTool (autoMapStep r req) = hasWebSearchTool req := by
  unfold hasWebSearchTool
  rw [(autoMapStep_fields r req).1]

/-- C3 (counterexample): the claim asserts `route_type = WebSearch` for every
request carrying a web-search tool, regardless of configuration.  When
`router.websearch` is not configured the web-search step is skipped
entirely (`if let Some(ref websearch_model)` at line 165), and this request
routes to Default. -/
theorem websearch_unset_counterexample :
    hasWebSearchTool
        { model := "m", messages := [⟨"user", .text "hi"⟩], max_tokens := 1,
          thinking := none, system := none,
          tools := some [⟨some "web_search", none, none, none⟩] } = true ∧
    (route
        { rcfg := { default := "def.m", background := none, think := none, websearch := none },
          modelNames := [], autoMapMatch := none, backgroundMatch := none, promptRules := [] }
        { model := "m", messages := [⟨"user", .text "hi"⟩], max_tokens := 1,
          thinking := none, system := none,
          tools := some [⟨some "web_search", none, none, none⟩] }).1.route_type
      = RouteType.default := by
  constructor <;> rfl

/-- C3 (amended): **provided `router.websearch` is configured**, every
request whose tools contain a tool whose `type` starts with `"web_search"`
routes to WebSearch with the configured websearch model, regardless of the
model name, thinking flag, prompt rules, or system prompt tags. -/
theorem websearch_routes_amended (r : Router) (req : AnthropicRequest) (w : String)
    (hw : r.rcfg.websearch = some w) (ht : hasWebSearchTool req = true) :
    (route r req).1 = ⟨w, .webSearch, none⟩ := by
  simp only [route, hw, hasWebSearchTool_autoMapStep, ht, if_true]

/-- Witness for C3 (amended): a request with thinking enabled, a prompt-rule
router and a subagent tag, still routed to the websearch model. -/
theorem websearch_routes_amended_witness :
    (route
        { rcfg := { default := "def.m", background := some "bg.m", think := some "th.m",
                    websearch := some "ws.m" },
          modelNames := [], autoMapMatch := some (fun m => m == "claude-opus-4"),
          backgroundMatch := some (fun _ => false), promptRules := [] }
        { model := "claude-opus-4", messages := [⟨"user", .text "search this"⟩], max_tokens := 5,
          thinking := some ⟨"enabled", some 1000⟩, system := none,
          tools := some [⟨some "web_search_20250305", some "web_search", none, none⟩] }).1
      = ⟨"ws.m", .webSearch, none⟩ := by
  exact websearch_routes_amended _ _ "ws.m" rfl rfl

/-! ## C4 — background routing on the original model name -/

/-- C4: for a request without a web-search tool, when `router.background` is
configured and the model name as sent by the client (before auto-mapping)
matches the background regex, routing yields Background with the configured
background model — independently of subagent tags, prompt rules and the
thinking flag, which are all checked later. -/
theorem background_uses_original_model (r : Router) (req : AnthropicRequest) (b : String)
    (hws : hasWebSearchTool req = false)
    (hb : r.rcfg.background = some b)
    (hm : r.isBackgroundTask req.model = true) :
    (route r req).1 = ⟨b, .background, none⟩ := by
  simp only [route, hb, hasWebSearchTool_autoMapStep, hws, hm, if_true, Bool.false_eq_true,
    if_false]
  cases r.rcfg.websearch <;> rfl

/-- Witness for C4: a haiku-matching original model that the auto-mapping
pre-pass would rewrite, with prompt rules and thinking enabled, still routed
to the background model. -/
theorem background_uses_original_model_witness :
    (route
        { rcfg := { default := "def.m", background := some "bg.m", think := some "th.m",
                    websearch := some "ws.m" },
          modelNames := [], autoMapMatch := some (fun m => strStartsWith m "claude-"),
          backgroundMatch := some (fun m => m == "claude-3-5-haiku-20241022"),
          promptRules := [] }
        { model := "claude-3-5-haiku-20241022", messages := [⟨"user", .text "hi"⟩],
          max_tokens := 5, thinking := some ⟨"enabled", none⟩, system := none,
          tools := none }).1
      = ⟨"bg.m", .background, none⟩ := by
  exact background_uses_original_model _ _ "bg.m" rfl rfl (by decide)

/-! ## C5 — dynamic prompt rules -/

/-- Helper: rules whose regex does not match the user content are skipped. -/
theorem matchRules_skip (u : String) (msgs : List Message)
    (pre rest : List CompiledPromptRule)
    (hpre : ∀ Q ∈ pre, Q.regex.capturesFn u = none) :
    matchRules u msgs (pre ++ rest) = matchRules u msgs rest := by
  induction pre with
  | nil => rfl
  | cons Q t ih =>
    have hQ : Q.regex.capturesFn u = none := hpre Q (List.mem_cons_self Q t)
    simp only [List.cons_append, matchRules, hQ]
    exact ih fun Q' h => hpre Q' (List.mem_cons_of_mem _ h)

/-- Helper: the strip search modifies the first user message with text and
leaves everything else alone. -/
theorem stripFromTurn_found (replaceAll : String → String)
    (dpre : List Message) (m : Message) (dpost : List Message)
    (hpre : ∀ m' ∈ dpre, (m'.role == "user" && msgHasText m') = false)
    (hm : (m.role == "user" && msgHasText m) = true) :
    stripFromTurn replaceAll (dpre ++ m :: dpost) =
      some (dpre ++ stripMsgContent replaceAll m :: dpost) := by
  induction dpre with
  | nil => simp [stripFromTurn, hm]
  | cons m' t ih =>
    have h' : (m'.role == "user" && msgHasText m') = false := hpre m' (List.mem_cons_self m' t)
    have iht := ih fun x hx => hpre x (List.mem_cons_of_mem _ hx)
    simp [stripFromTurn, h', iht]

/-- Helper: under the search hypotheses, the turn-starting strip rewrites
exactly the target message. -/
theorem stripMatch_target (replaceAll : String → String) (msgs : List Message)
    (dpre : List Message) (m : Message) (dpost : List Message)
    (hdrop : msgs.drop (findTurnStartIndex msgs) = dpre ++ m :: dpost)
    (hpre : ∀ m' ∈ dpre, (m'.role == "user" && msgHasText m') = false)
    (hm : (m.role == "user" && msgHasText m) = true) :
    stripMatchFromTurnStartingMessage replaceAll msgs =
      msgs.take (findTurnStartIndex msgs) ++ dpre ++ stripMsgContent replaceAll m :: dpost := by
  simp only [stripMatchFromTurnStartingMessage]
  rw [hdrop, stripFromTurn_found replaceAll dpre m dpost hpre hm, List.append_assoc]

/-- Helper: the route falls through WebSearch, Background and Subagent to the
prompt-rule step. -/
theorem route_reaches_prompt (r : Router) (req : AnthropicRequest)
    (model matched : String) (msgsOut : List Message)
    (hws : r.rcfg.websearch = none ∨ hasWebSearchTool req = false)
    (hbg : r.rcfg.background = none ∨ r.isBackgroundTask req.model = false)
    (hsub : (extractSubagentModel r.modelNames req.system).1 = none)
    (hmatch : matchPromptRule r req.messages = some (model, matched, msgsOut)) :
    route r req =
      (⟨model, .promptRule, some matched⟩, { autoMapStep r req with messages := msgsOut }) := by
  have hws' : (match r.rcfg.websearch with
      | some w => if hasWebSearchTool (autoMapStep r req) = true then some w else none
      | none => none) = (none : Option String) := by
    rcases hws with h | h
    · rw [h]
    · cases hw : r.rcfg.websearch with
      | none => rfl
      | some w => simp [hasWebSearchTool_autoMapStep, h]
  have hbg' : (match r.rcfg.background with
      | some b => if r.isBackgroundTask req.model = true then some b else none
      | none => none) = (none : Option String) := by
    rcases hbg with h | h
    · rw [h]
    · cases hb : r.rcfg.background with
      | none => rfl
      | some b => simp [h]
  have hpair : extractSubagentModel r.modelNames (autoMapStep r req).system =
      (none, (extractSubagentModel r.modelNames req.system).2) := by
    rw [(autoMapStep_fields r req).2.1, ← hsub]
  have hm' : matchPromptRule r (autoMapStep r req).messages = some (model, matched, msgsOut) := by
    rw [(autoMapStep_fields r req).2.2.1, hmatch]
  simp only [route, hws', hbg', hpair, hm']

/-- C5: for a compiled prompt rule `P` with `is_dynamic = true` (its model
template contains a capture reference) that is the first rule matching the
turn-starting user message text, when no earlier routing step fires the
decision is `PromptRule` with the model template expanded under the capture
groups of the first match and the matched substring recorded; with
`strip_match = false` the messages are untouched, and with
`strip_match = true` the turn-starting user message (here a plain-text
message, the first user message with text at or past the turn start) has
every match removed by the rule regex's `replace_all`. -/
theorem prompt_rule_dynamic_expansion (r : Router) (req : AnthropicRequest)
    (pre post : List CompiledPromptRule) (P : CompiledPromptRule)
    (caps : CapturesModel) (userText : String)
    (hrules : r.promptRules = pre ++ P :: post)
    (hpre : ∀ Q ∈ pre, Q.regex.capturesFn userText = none)
    (hP : P.regex.capturesFn userText = some caps)
    (hdyn : P.is_dynamic = true)
    (hextract : extractTurnStartingUserMessage req.messages = some userText)
    (hws : r.rcfg.websearch = none ∨ hasWebSearchTool req = false)
    (hbg : r.rcfg.background = none ∨ r.isBackgroundTask req.model = false)
    (hsub : (extractSubagentModel r.modelNames req.system).1 = none) :
    (route r req).1 = ⟨P.regex.expandFn P.model caps, .promptRule, some caps.whole⟩ ∧
    (P.strip_match = false → (route r req).2.messages = req.messages) ∧
    (P.strip_match = true →
      ∀ (dpre dpost : List Message) (t : String),
        req.messages.drop (findTurnStartIndex req.messages) =
          dpre ++ Message.mk "user" (.text t) :: dpost →
        (∀ m' ∈ dpre, (m'.role == "user" && msgHasText m') = false) →
        msgHasText (Message.mk "user" (.text t)) = true →
        (route r req).2.messages =
          req.messages.take (findTurnStartIndex req.messages) ++ dpre ++
            Message.mk "user" (.text (P.regex.replaceAllFn t)) :: dpost) := by
  have hne : (pre ++ P :: post).isEmpty = false := by cases pre <;> rfl
  have hmatch : matchPromptRule r req.messages =
      some (P.regex.expandFn P.model caps, caps.whole,
        if P.strip_match then
          stripMatchFromTurnStartingMessage P.regex.replaceAllFn req.messages
        else req.messages) := by
    unfold matchPromptRule
    rw [hrules, hne, hextract]
    simp only [Bool.false_eq_true, if_false]
    rw [matchRules_skip userText req.messages pre (P :: post) hpre]
    simp only [matchRules, hP, hdyn, if_true]
  have hroute := route_reaches_prompt r req (P.regex.expandFn P.model caps) caps.whole
    (if P.strip_match then
       stripMatchFromTurnStartingMessage P.regex.replaceAllFn req.messages
     else req.messages) hws hbg hsub hmatch
  refine ⟨by rw [hroute], ?_, ?_⟩
  · intro hs
    rw [hroute]
    simp [hs]
  · intro hs dpre dpost t hdrop hdpre htext
    rw [hroute]
    simp only [hs, if_true]
    have := stripMatch_target P.regex.replaceAllFn req.messages dpre
      (Message.mk "user" (.text t)) dpost hdrop hdpre (by simp [htext])
    simpa [stripMsgContent] using this

/-- Witness for C5: a single dynamic stripping rule matched by a one-message
request; the matched text is recorded, the model expanded from the captures,
and the match removed from the message. -/
theorem prompt_rule_dynamic_expansion_witness :
    (route fixtureRuleRouter fixtureRuleRequest).1
      = ⟨"deepseek-v3", .promptRule, some "CCM-MODEL:deepseek-v3"⟩ ∧
    (route fixtureRuleRouter fixtureRuleRequest).2.messages
      = [⟨"user", .text " write a function"⟩] := by
  have h := prompt_rule_dynamic_expansion fixtureRuleRouter fixtureRuleRequest
    [] [] fixtureDynamicRule ⟨"CCM-MODEL:deepseek-v3", [some "deepseek-v3"]⟩
    "CCM-MODEL:deepseek-v3 write a function"
    rfl (by simp) (by decide) rfl (by decide) (Or.inl rfl) (Or.inl rfl) rfl
  refine ⟨?_, ?_⟩
  · have h1 := h.1
    simpa [fixtureDynamicRule] using h1
  · have h3 := h.2.2 rfl [] [] "CCM-MODEL:deepseek-v3 write a function" (by decide) (by simp)
      (by decide)
    simpa [fixtureRuleRequest, fixtureDynamicRule] using h3

/-! ## C2 — the streaming grammar -/

/-- C2 (counterexample): a single upstream chunk whose tool-call delta
carries only arguments (no id/name, so the index is never registered) and a
`finish_reason`.  The transformer emits an `input_json_delta` and a
`content_block_stop` for block 0 without ever emitting a
`content_block_start`, so the claimed grammar — every delta inside a
start/stop pair, every stop matching a prior start — is violated. -/
theorem stream_grammar_counterexample :
    fullStream "msg"
        [⟨"m", [⟨⟨none, none, some [⟨some 0, none, none, some "x"⟩]⟩, some "stop"⟩]⟩]
      = [SseEvent.messageStart "msg" "m",
         SseEvent.blockDelta 0 (.inputJsonDelta "x"),
         SseEvent.blockStop 0,
         SseEvent.messageDelta "end_turn" none,
         SseEvent.messageStop] ∧
    seqGrammarOk (fullStream "msg"
        [⟨"m", [⟨⟨none, none, some [⟨some 0, none, none, some "x"⟩]⟩, some "stop"⟩]⟩])
      = false := by
  constructor <;> rfl

/-- Helper: running the scanner over an appended list. -/
theorem scanEvents_append (b : Bool) (ss : ScanState) (l₁ l₂ : List SseEvent) :
    scanEvents b ss (l₁ ++ l₂) =
      match scanEvents b ss l₁ with
      | some ss' => scanEvents b ss' l₂
      | none => none := by
  induction l₁ generalizing ss with
  | nil => rfl
  | cons e t ih =>
    simp only [List.cons_append, scanEvents]
    cases scanEvent b ss e with
    | none => rfl
    | some ss' => exact ih ss'

/-- Helper: a successful tool-block lookup is a recorded block index. -/
theorem toolBlocksLookup_mem {l : List (Nat × Nat)} {k v : Nat}
    (h : toolBlocksLookup l k = some v) : v ∈ l.map (·.2) := by
  unfold toolBlocksLookup at h
  cases hf : l.find? (fun p => p.1 == k) with
  | none => rw [hf] at h; cases h
  | some p =>
    rw [hf] at h
    cases h
    exact List.mem_map_of_mem _ (List.mem_of_find?_eq_some hf)

/-- Helper: appending a fresh key makes it found. -/
theorem toolBlocksLookup_append {l : List (Nat × Nat)} {k : Nat} (v : Nat)
    (h : toolBlocksLookup l k = none) :
    toolBlocksLookup (l ++ [(k, v)]) k = some v := by
  unfold toolBlocksLookup at h ⊢
  cases hf : l.find? (fun p => p.1 == k) with
  | some p => rw [hf] at h; cases h
  | none =>
    rw [List.find?_append, hf]
    simp

/-- Helper: the registration step only touches the tool map and the index
counter. -/
theorem registerToolCall_flags (st : StreamTransformState) (tc : ToolCallDelta) :
    (registerToolCall st tc).2.message_started = st.message_started ∧
    (registerToolCall st tc).2.stream_ended = st.stream_ended ∧
    (registerToolCall st tc).2.text_block_open = st.text_block_open := by
  unfold registerToolCall
  split <;> exact ⟨rfl, rfl, rfl⟩

/-- Helper: the argument step only touches the tool map and the index
counter. -/
theorem emitToolArgs_flags (st : StreamTransformState) (tc : ToolCallDelta) :
    (emitToolArgs st tc).2.message_started = st.message_started ∧
    (emitToolArgs st tc).2.stream_ended = st.stream_ended ∧
    (emitToolArgs st tc).2.text_block_open = st.text_block_open := by
  unfold emitToolArgs
  repeat' split
  all_goals exact ⟨rfl, rfl, rfl⟩

/-- Helper: `processToolCall` only touches the tool map and the index
counter. -/
theorem processToolCall_flags (st : StreamTransformState) (tc : ToolCallDelta) :
    (processToolCall st tc).2.message_started = st.message_started ∧
    (processToolCall st tc).2.stream_ended = st.stream_ended ∧
    (processToolCall st tc).2.text_block_open = st.text_block_open := by
  have h1 := registerToolCall_flags st tc
  have h2 := emitToolArgs_flags (registerToolCall st tc).2 tc
  unfold processToolCall
  exact ⟨h2.1.trans h1.1, h2.2.1.trans h1.2.1, h2.2.2.trans h1.2.2⟩

/-- Helper: `processToolCalls` only touches the tool map and the index
counter. -/
theorem processToolCalls_flags (tcs : List ToolCallDelta) (st : StreamTransformState) :
    (processToolCalls st tcs).2.message_started = st.message_started ∧
    (processToolCalls st tcs).2.stream_ended = st.stream_ended ∧
    (processToolCalls st tcs).2.text_block_open = st.text_block_open := by
  induction tcs generalizing st with
  | nil => exact ⟨rfl, rfl, rfl⟩
  | cons tc rest ih =>
    have h1 := processToolCall_flags st tc
    have h2 := ih (processToolCall st tc).2
    simp only [processToolCalls]
    exact ⟨h2.1.trans h1.1, h2.2.1.trans h1.2.1, h2.2.2.trans h1.2.2⟩

/-- Helper: the text section does not touch the started/ended flags or the
tool map. -/
theorem processText_flags (st : StreamTransformState) (c : StreamChoice) :
    (processText st c).2.message_started = st.message_started ∧
    (processText st c).2.stream_ended = st.stream_ended ∧
    (processText st c).2.tool_blocks = st.tool_blocks := by
  unfold processText
  repeat' split
  all_goals simp_all

/-- Helper: the tool section does not touch the started/ended flags. -/
theorem processToolSection_flags (st : StreamTransformState) (c : StreamChoice) :
    (processToolSection st c).2.message_started = st.message_started ∧
    (processToolSection st c).2.stream_ended = st.stream_ended := by
  unfold processToolSection
  cases c.delta.tool_calls with
  | none => exact ⟨rfl, rfl⟩
  | some tcs =>
    by_cases h : st.text_block_open = true
    · simp only [h, if_true]
      have := processToolCalls_flags tcs { st with text_block_open := false }
      exact ⟨this.1, this.2.1⟩
    · simp only [Bool.not_eq_true] at h
      simp only [h, Bool.false_eq_true, if_false]
      have := processToolCalls_flags tcs st
      exact ⟨this.1, this.2.1⟩

/-- Helper: the finish section does not touch `message_started`. -/
theorem processFinish_ms (st : StreamTransformState) (c : StreamChoice) :
    (processFinish st c).2.message_started = st.message_started := by
  unfold processFinish
  cases c.finish_reason <;> rfl

/-- Helper: a choice does not touch `message_started`. -/
theorem processChoice_ms (st : StreamTransformState) (c : StreamChoice) :
    (processChoice st c).2.message_started = st.message_started := by
  unfold processChoice
  simp only []
  rw [processFinish_ms, (processToolSection_flags _ _).1, (processText_flags _ _).1]

/-- Helper: a choice list does not touch `message_started`. -/
theorem processChoices_ms (cs : List StreamChoice) (st : StreamTransformState) :
    (processChoices st cs).2.message_started = st.message_started := by
  induction cs generalizing st with
  | nil => rfl
  | cons c rest ih =>
    simp only [processChoices]
    rw [ih, processChoice_ms]

/-- Helper: once `message_started` is set it stays set through the chunk
walk. -/
theorem transformChunks_ms_true (mid : String) (ts : StreamTransformState)
    (chunks : List StreamChunk) (h : ts.message_started = true) :
    (transformChunks mid ts chunks).2.message_started = true := by
  induction chunks generalizing ts with
  | nil => exact h
  | cons ch rest ih =>
    simp only [transformChunks, transformChunk, h]
    simp only [Bool.not_true, Bool.false_eq_true, if_false]
    apply ih
    rw [processChoices_ms]
    exact h

/-- Helper: the chunk walk over a non-empty list sets `message_started`. -/
theorem transformChunks_started (mid : String) (ts : StreamTransformState)
    (chunks : List StreamChunk) (h : chunks ≠ []) :
    (transformChunks mid ts chunks).2.message_started = true := by
  cases chunks with
  | nil => exact absurd rfl h
  | cons ch rest =>
    simp only [transformChunks, transformChunk]
    by_cases hms : ts.message_started = true
    · simp only [hms, Bool.not_true, Bool.false_eq_true, if_false]
      apply transformChunks_ms_true
      rw [processChoices_ms]
      exact hms
    · simp only [Bool.not_eq_true] at hms
      simp only [hms, Bool.not_false, if_true]
      apply transformChunks_ms_true
      rw [processChoices_ms]

/-! ### Scanner transition lemmas -/

/-- Accepting a `tool_use` block start. -/
theorem scanEvent_blockStart_toolUse (ss : ScanState) (i : Nat) (id name : String)
    (h1 : ss.started = true) (h2 : ss.ended = false) (h3 : ss.stopped = false)
    (h4 : lastOpenedLt ss.lastOpened i = true) :
    scanEvent false ss (.blockStart i (.toolUse id name)) =
      some { ss with openBlocks := ss.openBlocks ++ [i], lastOpened := some i } := by
  simp [scanEvent, h1, h2, h3, h4, textStartOk]

/-- Accepting the text block start. -/
theorem scanEvent_blockStart_text (ss : ScanState)
    (h1 : ss.started = true) (h2 : ss.ended = false) (h3 : ss.stopped = false)
    (h5 : ss.lastOpened = none) :
    scanEvent false ss (.blockStart 0 .text) =
      some { ss with openBlocks := ss.openBlocks ++ [0], lastOpened := some 0 } := by
  simp [scanEvent, h1, h2, h3, lastOpenedLt, h5, textStartOk]

/-- Accepting a delta for an open block. -/
theorem scanEvent_blockDelta (ss : ScanState) (i : Nat) (d : DeltaInfo)
    (h1 : ss.started = true) (h2 : ss.ended = false) (h3 : ss.stopped = false)
    (h4 : i ∈ ss.openBlocks) :
    scanEvent false ss (.blockDelta i d) = some ss := by
  simp [scanEvent, h1, h2, h3, h4]

/-- Accepting a stop for an open block. -/
theorem scanEvent_blockStop (ss : ScanState) (i : Nat)
    (h1 : ss.started = true) (h2 : ss.ended = false) (h3 : ss.stopped = false)
    (h4 : i ∈ ss.openBlocks) :
    scanEvent false ss (.blockStop i) =
      some { ss with openBlocks := ss.openBlocks.erase i } := by
  simp [scanEvent, h1, h2, h3, h4]

/-! ### Invariant preservation, step by step -/

/-- The registration step preserves the invariant and is accepted by the
scanner. -/
theorem registerToolCall_inv (ts : StreamTransformState) (ss : ScanState) (tc : ToolCallDelta)
    (hInv : StreamInv ts ss) (hms : ts.message_started = true) (hse : ts.stream_ended = false) :
    ∃ ss', scanEvents false ss (registerToolCall ts tc).1 = some ss' ∧
      StreamInv (registerToolCall ts tc).2 ss' := by
  have hstart : ss.started = true := hInv.started.trans hms
  have hend : ss.ended = false := hInv.ended.trans hse
  have hstop : ss.stopped = false := hInv.stopped.trans hse
  unfold registerToolCall
  split
  case isFalse => exact ⟨ss, rfl, hInv⟩
  case isTrue h =>
    refine ⟨{ ss with openBlocks := ss.openBlocks ++ [ts.next_block_index], lastOpened := some ts.next_block_index }, ?_, ?_⟩
    · have h4 : lastOpenedLt ss.lastOpened ts.next_block_index = true := by
        rcases hInv.lastIdx hse with ⟨_, hl⟩ | ⟨hn, hl⟩
        · simp [lastOpenedLt, hl]
        · simp only [lastOpenedLt, hl, decide_eq_true_eq]
          omega
      simp [scanEvents, scanEvent_blockStart_toolUse ss ts.next_block_index _ _
        hstart hend hstop h4]
    · constructor
      · exact hInv.started
      · exact hInv.ended
      · exact hInv.stopped
      · intro h'
        rw [hInv.blocks hse]
        simp [List.append_assoc]
      · intro _
        right
        simp
      · intro p hp
        rcases List.mem_append.mp hp with hold | hnew
        · exact Nat.lt_succ_of_lt (hInv.bound p hold)
        · simp only [List.mem_singleton] at hnew
          subst hnew
          exact Nat.lt_succ_self _
      · intro htbo
        exact Nat.le_succ_of_le (hInv.textNext htbo)
      · intro htbo p hp
        rcases List.mem_append.mp hp with hold | hnew
        · exact hInv.toolPos htbo p hold
        · simp only [List.mem_singleton] at hnew
          subst hnew
          exact hInv.textNext htbo

/-- The argument step preserves the invariant and is accepted by the scanner,
provided the index is mapped or the arguments are empty. -/
theorem emitToolArgs_inv (ts : StreamTransformState) (ss : ScanState) (tc : ToolCallDelta)
    (hInv : StreamInv ts ss) (hms : ts.message_started = true) (hse : ts.stream_ended = false)
    (hok : (toolBlocksLookup ts.tool_blocks (tc.index.getD 0)).isSome = true ∨
           tc.arguments.getD "" = "") :
    ∃ ss', scanEvents false ss (emitToolArgs ts tc).1 = some ss' ∧
      StreamInv (emitToolArgs ts tc).2 ss' := by
  have hstart : ss.started = true := hInv.started.trans hms
  have hend : ss.ended = false := hInv.ended.trans hse
  have hstop : ss.stopped = false := hInv.stopped.trans hse
  unfold emitToolArgs
  cases hargs : tc.arguments with
  | none => exact ⟨ss, rfl, hInv⟩
  | some a =>
    by_cases ha : a = ""
    · subst ha
      simp only [ne_eq, not_true_eq_false, Bool.false_eq_true, if_false]
      exact ⟨ss, rfl, hInv⟩
    · have hsome : (toolBlocksLookup ts.tool_blocks (tc.index.getD 0)).isSome = true := by
        rcases hok with h | h
        · exact h
        · rw [hargs] at h
          exact absurd h ha
      obtain ⟨bi, hbi⟩ := Option.isSome_iff_exists.mp hsome
      rw [hbi]
      simp only [ne_eq, ha, not_false_eq_true, if_true]
      have hmem : bi ∈ ss.openBlocks := by
        rw [hInv.blocks hse]
        exact List.mem_append_right _ (toolBlocksLookup_mem hbi)
      refine ⟨ss, ?_, hInv⟩
      simp [scanEvents, scanEvent_blockDelta ss bi _ hstart hend hstop hmem]

/-- A single tool-call delta preserves the invariant under `toolCallOk`. -/
theorem processToolCall_inv (ts : StreamTransformState) (ss : ScanState) (tc : ToolCallDelta)
    (hInv : StreamInv ts ss) (hms : ts.message_started = true) (hse : ts.stream_ended = false)
    (hok : toolCallOk ts tc = true) :
    ∃ ss', scanEvents false ss (processToolCall ts tc).1 = some ss' ∧
      StreamInv (processToolCall ts tc).2 ss' := by
  obtain ⟨ss1, hscan1, hInv1⟩ := registerToolCall_inv ts ss tc hInv hms hse
  have hflags := registerToolCall_flags ts tc
  have hms1 : (registerToolCall ts tc).2.message_started = true := hflags.1.trans hms
  have hse1 : (registerToolCall ts tc).2.stream_ended = false := hflags.2.1.trans hse
  have hok1 : (toolBlocksLookup (registerToolCall ts tc).2.tool_blocks
        (tc.index.getD 0)).isSome = true ∨ tc.arguments.getD "" = "" := by
    simp only [toolCallOk, Bool.or_eq_true, Bool.and_eq_true, beq_iff_eq] at hok
    by_cases hreg : (tc.id.isSome && tc.name.isSome
        && (toolBlocksLookup ts.tool_blocks (tc.index.getD 0)).isNone) = true
    · left
      unfold registerToolCall
      rw [if_pos hreg]
      simp only [Bool.and_eq_true, Option.isNone_iff_eq_none] at hreg
      rw [toolBlocksLookup_append _ hreg.2]
      rfl
    · have hsame : (registerToolCall ts tc).2 = ts := by
        unfold registerToolCall
        rw [if_neg hreg]
      rw [hsame]
      rcases hok with (h | h) | h
      · exact Or.inl h
      · left
        cases hl : toolBlocksLookup ts.tool_blocks (tc.index.getD 0) with
        | some v => rfl
        | none =>
          exfalso
          apply hreg
          simp [h.1, h.2, hl]
      · exact Or.inr h
  obtain ⟨ss2, hscan2, hInv2⟩ := emitToolArgs_inv (registerToolCall ts tc).2 ss1 tc hInv1
    hms1 hse1 hok1
  refine ⟨ss2, ?_, ?_⟩
  · show scanEvents false ss
      ((registerToolCall ts tc).1 ++ (emitToolArgs (registerToolCall ts tc).2 tc).1) = some ss2
    rw [scanEvents_append, hscan1]
    exact hscan2
  · exact hInv2

/-- A tool-call array preserves the invariant under `toolCallsOk`. -/
theorem processToolCalls_inv (tcs : List ToolCallDelta) (ts : StreamTransformState)
    (ss : ScanState) (hInv : StreamInv ts ss) (hms : ts.message_started = true)
    (hse : ts.stream_ended = false) (hok : toolCallsOk ts tcs = true) :
    ∃ ss', scanEvents false ss (processToolCalls ts tcs).1 = some ss' ∧
      StreamInv (processToolCalls ts tcs).2 ss' := by
  induction tcs generalizing ts ss with
  | nil => exact ⟨ss, rfl, hInv⟩
  | cons tc rest ih =>
    simp only [toolCallsOk, Bool.and_eq_true] at hok
    obtain ⟨ss1, hscan1, hInv1⟩ := processToolCall_inv ts ss tc hInv hms hse hok.1
    have hflags := processToolCall_flags ts tc
    obtain ⟨ss2, hscan2, hInv2⟩ := ih (processToolCall ts tc).2 ss1 hInv1
      (hflags.1.trans hms) (hflags.2.1.trans hse) hok.2
    refine ⟨ss2, ?_, hInv2⟩
    show scanEvents false ss
      ((processToolCall ts tc).1 ++ (processToolCalls (processToolCall ts tc).2 rest).1) = some ss2
    rw [scanEvents_append, hscan1]
    exact hscan2

/-- The text section preserves the invariant under the text condition of
`choiceOk`. -/
theorem processText_inv (ts : StreamTransformState) (ss : ScanState) (c : StreamChoice)
    (hInv : StreamInv ts ss) (hms : ts.message_started = true) (hse : ts.stream_ended = false)
    (hok : (match textOf c with
            | some t => t == "" || ts.text_block_open || ts.next_block_index == 0
            | none => true) = true) :
    ∃ ss', scanEvents false ss (processText ts c).1 = some ss' ∧
      StreamInv (processText ts c).2 ss' := by
  have hstart : ss.started = true := hInv.started.trans hms
  have hend : ss.ended = false := hInv.ended.trans hse
  have hstop : ss.stopped = false := hInv.stopped.trans hse
  unfold processText
  cases ht : textOf c with
  | none => exact ⟨ss, rfl, hInv⟩
  | some t =>
    rw [ht] at hok
    by_cases he : t = ""
    · subst he
      simp only [ne_eq, not_true_eq_false, Bool.false_eq_true, if_false]
      exact ⟨ss, rfl, hInv⟩
    · simp only [ne_eq, he, not_false_eq_true, if_true]
      by_cases hopen : ts.text_block_open = true
      · simp only [hopen, Bool.not_true, Bool.false_eq_true, if_false]
        have hmem : 0 ∈ ss.openBlocks := by
          rw [hInv.blocks hse]
          simp [hopen]
        refine ⟨ss, ?_, hInv⟩
        simp [scanEvents, scanEvent_blockDelta ss 0 _ hstart hend hstop hmem]
      · have hopen' : ts.text_block_open = false := by simpa using hopen
        simp only [hopen', Bool.not_false, if_true]
        have hnext : ts.next_block_index = 0 := by
          simp only [Bool.or_eq_true, beq_iff_eq] at hok
          rcases hok with (h | h) | h
          · exact absurd h he
          · exact absurd h hopen
          · exact h
        have htb : ts.tool_blocks = [] := by
          cases htb : ts.tool_blocks with
          | nil => rfl
          | cons p rest =>
            have hb := hInv.bound p (htb ▸ List.mem_cons_self p rest)
            rw [hnext] at hb
            exact absurd hb (Nat.not_lt_zero _)
        have hlast : ss.lastOpened = none := by
          rcases hInv.lastIdx hse with ⟨_, hl⟩ | ⟨hn, _⟩
          · exact hl
          · rw [hnext] at hn
            exact absurd hn (by omega)
        have hob : ss.openBlocks = [] := by
          rw [hInv.blocks hse, hopen', htb]
          rfl
        refine ⟨{ ss with openBlocks := ss.openBlocks ++ [0], lastOpened := some 0 }, ?_, ?_⟩
        · have hstep := scanEvent_blockStart_text ss hstart hend hstop hlast
          have hmem0 : 0 ∈ ss.openBlocks ++ [0] := List.mem_append_right _ (List.mem_singleton.mpr rfl)
          have hd := scanEvent_blockDelta { ss with openBlocks := ss.openBlocks ++ [0], lastOpened := some 0 } 0 (.textDelta t) hstart hend hstop hmem0
          simp only [scanEvents, hstep, hd]
        · constructor
          · exact hInv.started
          · exact hInv.ended
          · exact hInv.stopped
          · intro _
            rw [hob, htb]
            rfl
          · intro _
            right
            exact ⟨Nat.le_refl 1, rfl⟩
          · intro p hp
            rw [htb] at hp
            cases hp
          · intro _
            exact Nat.le_refl 1
          · intro _ p hp
            rw [htb] at hp
            cases hp

/-- The tool section preserves the invariant under the tool condition of
`choiceOk` (stated at the section's input state). -/
theorem processToolSection_inv (ts : StreamTransformState) (ss : ScanState) (c : StreamChoice)
    (hInv : StreamInv ts ss) (hms : ts.message_started = true) (hse : ts.stream_ended = false)
    (hok : (match c.delta.tool_calls with
            | some tcs => toolCallsOk { ts with text_block_open := false } tcs
            | none => true) = true) :
    ∃ ss', scanEvents false ss (processToolSection ts c).1 = some ss' ∧
      StreamInv (processToolSection ts c).2 ss' := by
  have hstart : ss.started = true := hInv.started.trans hms
  have hend : ss.ended = false := hInv.ended.trans hse
  have hstop : ss.stopped = false := hInv.stopped.trans hse
  unfold processToolSection
  cases htc : c.delta.tool_calls with
  | none => exact ⟨ss, rfl, hInv⟩
  | some tcs =>
    rw [htc] at hok
    by_cases hopen : ts.text_block_open = true
    · simp only [hopen, if_true]
      have hmem : 0 ∈ ss.openBlocks := by
        rw [hInv.blocks hse]
        simp [hopen]
      have herase : ss.openBlocks.erase 0 = ts.tool_blocks.map (·.2) := by
        rw [hInv.blocks hse]
        simp [hopen]
      have hInvC : StreamInv { ts with text_block_open := false }
          { ss with openBlocks := ss.openBlocks.erase 0 } := by
        constructor
        · exact hInv.started
        · exact hInv.ended
        · exact hInv.stopped
        · intro _
          rw [herase]
          rfl
        · intro _
          exact hInv.lastIdx hse
        · exact hInv.bound
        · intro h
          cases h
        · intro h p hp
          cases h
      obtain ⟨ss2, hscan2, hInv2⟩ := processToolCalls_inv tcs { ts with text_block_open := false }
        { ss with openBlocks := ss.openBlocks.erase 0 } hInvC hms hse hok
      refine ⟨ss2, ?_, hInv2⟩
      simp only [scanEvents, List.cons_append, List.nil_append,
        scanEvent_blockStop ss 0 hstart hend hstop hmem]
      exact hscan2
    · have hopen' : ts.text_block_open = false := by simpa using hopen
      have hsame : ({ ts with text_block_open := false } : StreamTransformState) = ts := by
        cases ts
        simp_all
      rw [hsame] at hok
      simp only [hopen', Bool.false_eq_true, if_false]
      obtain ⟨ss2, hscan2, hInv2⟩ := processToolCalls_inv tcs ts ss hInv hms hse hok
      exact ⟨ss2, by simpa using hscan2, hInv2⟩

/-- Close every open block, in the order they appear in the scanner's open
list. -/
theorem scan_stops (bis : List Nat) (ss : ScanState)
    (h1 : ss.started = true) (h2 : ss.ended = false) (h3 : ss.stopped = false)
    (hblocks : ss.openBlocks = bis) :
    scanEvents false ss (bis.map SseEvent.blockStop) = some { ss with openBlocks := [] } := by
  induction bis generalizing ss with
  | nil =>
    have : ({ ss with openBlocks := [] } : ScanState) = ss := by
      cases ss
      simp_all
    rw [this]
    rfl
  | cons b t ih =>
    have hmem : b ∈ ss.openBlocks := by
      rw [hblocks]
      exact List.mem_cons_self b t
    have herase : ss.openBlocks.erase b = t := by
      rw [hblocks]
      exact List.erase_cons_head b t
    simp only [List.map_cons, scanEvents, scanEvent_blockStop ss b h1 h2 h3 hmem]
    rw [ih { ss with openBlocks := ss.openBlocks.erase b } h1 h2 h3 (by rw [herase])]

/-- Close every open block, then accept the `message_delta` and the
`message_stop`. -/
theorem scan_finish (bis : List Nat) (ss : ScanState) (sr : String) (sq : Option String)
    (h1 : ss.started = true) (h2 : ss.ended = false) (h3 : ss.stopped = false)
    (hblocks : ss.openBlocks = bis) :
    scanEvents false ss (bis.map SseEvent.blockStop
        ++ [SseEvent.messageDelta sr sq, SseEvent.messageStop]) =
      some { ss with openBlocks := [], ended := true, stopped := true } := by
  rw [scanEvents_append, scan_stops bis ss h1 h2 h3 hblocks]
  simp [scanEvents, scanEvent, h1, h2, h3]

/-- The block-closing events of the finish and finalization paths, as a
single map over the open-block list. -/
theorem closeEvents_as_map (ts : StreamTransformState) :
    (if ts.text_block_open then [SseEvent.blockStop 0] else [])
      ++ ts.tool_blocks.map (fun p => SseEvent.blockStop p.2)
    = ((if ts.text_block_open then [0] else [])
        ++ ts.tool_blocks.map (fun p : Nat × Nat => p.2)).map SseEvent.blockStop := by
  cases h : ts.text_block_open <;> simp [List.map_map, Function.comp]

/-- The finish section preserves the invariant. -/
theorem processFinish_inv (ts : StreamTransformState) (ss : ScanState) (c : StreamChoice)
    (hInv : StreamInv ts ss) (hms : ts.message_started = true) (hse : ts.stream_ended = false) :
    ∃ ss', scanEvents false ss (processFinish ts c).1 = some ss' ∧
      StreamInv (processFinish ts c).2 ss' := by
  have hstart : ss.started = true := hInv.started.trans hms
  have hend : ss.ended = false := hInv.ended.trans hse
  have hstop : ss.stopped = false := hInv.stopped.trans hse
  unfold processFinish
  cases hr : c.finish_reason with
  | none => exact ⟨ss, rfl, hInv⟩
  | some reason =>
    refine ⟨{ ss with openBlocks := [], ended := true, stopped := true }, ?_, ?_⟩
    · simp only []
      rw [closeEvents_as_map]
      exact scan_finish _ ss _ _ hstart hend hstop (hInv.blocks hse)
    · constructor
      · exact hInv.started
      · simp [hInv.ended]
      · simp [hInv.stopped]
      · intro h
        cases h
      · intro h
        cases h
      · exact hInv.bound
      · exact hInv.textNext
      · exact hInv.toolPos

/-- A whole choice preserves the invariant under `choiceOk`. -/
theorem processChoice_inv (ts : StreamTransformState) (ss : ScanState) (c : StreamChoice)
    (hInv : StreamInv ts ss) (hms : ts.message_started = true)
    (hok : choiceOk ts c = true) :
    ∃ ss', scanEvents false ss (processChoice ts c).1 = some ss' ∧
      StreamInv (processChoice ts c).2 ss' := by
  simp only [choiceOk, Bool.and_eq_true, Bool.not_eq_eq_eq_not, Bool.not_true] at hok
  obtain ⟨⟨hse, htext⟩, htools⟩ := hok
  obtain ⟨ss1, hscan1, hInv1⟩ := processText_inv ts ss c hInv hms hse htext
  have hf1 := processText_flags ts c
  obtain ⟨ss2, hscan2, hInv2⟩ := processToolSection_inv (processText ts c).2 ss1 c hInv1
    (hf1.1.trans hms) (hf1.2.1.trans hse) htools
  have hf2 := processToolSection_flags (processText ts c).2 c
  obtain ⟨ss3, hscan3, hInv3⟩ := processFinish_inv (processToolSection (processText ts c).2 c).2
    ss2 c hInv2 (hf2.1.trans (hf1.1.trans hms)) (hf2.2.trans (hf1.2.1.trans hse))
  refine ⟨ss3, ?_, hInv3⟩
  show scanEvents false ss
    ((processText ts c).1 ++ (processToolSection (processText ts c).2 c).1
      ++ (processFinish (processToolSection (processText ts c).2 c).2 c).1) = some ss3
  rw [scanEvents_append, scanEvents_append, hscan1]
  show (match scanEvents false ss1 (processToolSection (processText ts c).2 c).1 with
        | some ss' => scanEvents false ss'
            (processFinish (processToolSection (processText ts c).2 c).2 c).1
        | none => none) = some ss3
  rw [hscan2]
  exact hscan3

/-- A choice list preserves the invariant under `choicesOk`. -/
theorem processChoices_inv (cs : List StreamChoice) (ts : StreamTransformState)
    (ss : ScanState) (hInv : StreamInv ts ss) (hms : ts.message_started = true)
    (hok : choicesOk ts cs = true) :
    ∃ ss', scanEvents false ss (processChoices ts cs).1 = some ss' ∧
      StreamInv (processChoices ts cs).2 ss' := by
  induction cs generalizing ts ss with
  | nil => exact ⟨ss, rfl, hInv⟩
  | cons c rest ih =>
    simp only [choicesOk, Bool.and_eq_true] at hok
    obtain ⟨ss1, hscan1, hInv1⟩ := processChoice_inv ts ss c hInv hms hok.1
    obtain ⟨ss2, hscan2, hInv2⟩ := ih (processChoice ts c).2 ss1 hInv1
      ((processChoice_ms ts c).trans hms) hok.2
    refine ⟨ss2, ?_, hInv2⟩
    show scanEvents false ss
      ((processChoice ts c).1 ++ (processChoices (processChoice ts c).2 rest).1) = some ss2
    rw [scanEvents_append, hscan1]
    exact hscan2

/-- A chunk always leaves `message_started` set. -/
theorem transformChunk_ms (ch : StreamChunk) (mid : String) (ts : StreamTransformState) :
    (transformChunk ch mid ts).2.message_started = true := by
  unfold transformChunk
  by_cases h : ts.message_started = true
  · simp only [h, Bool.not_true, Bool.false_eq_true, if_false]
    rw [processChoices_ms]
    exact h
  · have h' : ts.message_started = false := by simpa using h
    simp only [h', Bool.not_false, if_true]
    rw [processChoices_ms]

/-- A whole chunk preserves the invariant under its `chunksOk` conditions. -/
theorem transformChunk_inv (ch : StreamChunk) (mid : String) (ts : StreamTransformState)
    (ss : ScanState) (hInv : StreamInv ts ss)
    (hms_se : ts.message_started = false → ts.stream_ended = false)
    (hok : choicesOk (if !ts.message_started then { ts with message_started := true } else ts)
        ch.choices = true) :
    ∃ ss', scanEvents false ss (transformChunk ch mid ts).1 = some ss' ∧
      StreamInv (transformChunk ch mid ts).2 ss' := by
  unfold transformChunk
  by_cases hms : ts.message_started = true
  · simp only [hms, Bool.not_true, Bool.false_eq_true, if_false] at hok ⊢
    obtain ⟨ss', h1, h2⟩ := processChoices_inv ch.choices ts ss hInv hms hok
    exact ⟨ss', by simpa using h1, h2⟩
  · have hms' : ts.message_started = false := by simpa using hms
    have hse := hms_se hms'
    simp only [hms', Bool.not_false, if_true] at hok ⊢
    have hstep : scanEvent false ss (.messageStart mid ch.model) =
        some { ss with started := true } := by
      have h1 : ss.started = false := hInv.started.trans hms'
      have h3 : ss.stopped = false := hInv.stopped.trans hse
      simp [scanEvent, h1, h3]
    have hInv0 : StreamInv { ts with message_started := true } { ss with started := true } := by
      constructor
      · rfl
      · exact hInv.ended
      · exact hInv.stopped
      · exact hInv.blocks
      · exact hInv.lastIdx
      · exact hInv.bound
      · exact hInv.textNext
      · exact hInv.toolPos
    obtain ⟨ss', h1, h2⟩ := processChoices_inv ch.choices { ts with message_started := true }
      { ss with started := true } hInv0 rfl hok
    refine ⟨ss', ?_, h2⟩
    simp only [List.cons_append, List.nil_append, scanEvents, hstep]
    exact h1

/-- The chunk walk preserves the invariant under `chunksOk`. -/
theorem transformChunks_inv (chunks : List StreamChunk) (mid : String)
    (ts : StreamTransformState) (ss : ScanState) (hInv : StreamInv ts ss)
    (hms_se : ts.message_started = false → ts.stream_ended = false)
    (hok : chunksOk ts chunks = true) :
    ∃ ss', scanEvents false ss (transformChunks mid ts chunks).1 = some ss' ∧
      StreamInv (transformChunks mid ts chunks).2 ss' := by
  induction chunks generalizing ts ss with
  | nil => exact ⟨ss, rfl, hInv⟩
  | cons ch rest ih =>
    simp only [chunksOk, Bool.and_eq_true] at hok
    obtain ⟨ss1, hscan1, hInv1⟩ := transformChunk_inv ch mid ts ss hInv hms_se hok.1
    have hms1 : (transformChunk ch mid ts).2.message_started = true := transformChunk_ms ch mid ts
    have hok2 : chunksOk (transformChunk ch mid ts).2 rest = true := by exact hok.2
    obtain ⟨ss2, hscan2, hInv2⟩ := ih (transformChunk ch mid ts).2 ss1 hInv1
      (fun h => absurd (hms1.symm.trans h) (by simp)) hok2
    refine ⟨ss2, ?_, hInv2⟩
    show scanEvents false ss
      ((transformChunk ch mid ts).1 ++ (transformChunks mid (transformChunk ch mid ts).2 rest).1)
        = some ss2
    rw [scanEvents_append, hscan1]
    exact hscan2

/-- C2 (amended): for every non-empty, well-behaved upstream chunk sequence —
no activity after a `finish_reason`, non-empty text deltas only while the
text block is open or before any block was opened, and every argument-bearing
tool-call delta for an index that is registered no later than that delta —
the full downstream event sequence (EOF finalization included) is
well-formed: it starts with `message_start`, every `content_block_delta` and
`content_block_stop` addresses a block opened by a prior
`content_block_start` and not yet stopped, no block index is opened twice,
block indices are opened in increasing order with the text block (if
present) only at index 0 and only as the first block, all open blocks are
stopped before the single trailing `message_delta` `message_stop`, and
nothing follows.  (Unlike the claim's one-at-a-time grammar, several tool
blocks may be open simultaneously, which the transformer produces for
parallel tool calls.) -/
theorem stream_grammar_amended (mid : String) (chunks : List StreamChunk)
    (hne : chunks ≠ []) (hgood : goodChunks chunks = true) :
    streamWellFormed (fullStream mid chunks) = true := by
  have hInv0 : StreamInv StreamTransformState.init ScanState.start := by
    constructor
    · rfl
    · rfl
    · rfl
    · intro _
      rfl
    · intro _
      exact Or.inl ⟨rfl, rfl⟩
    · intro p hp
      cases hp
    · intro h
      cases h
    · intro h p hp
      cases h
  obtain ⟨ss', hscan, hInv⟩ := transformChunks_inv chunks mid StreamTransformState.init
    ScanState.start hInv0 (fun _ => rfl) hgood
  have hms : (transformChunks mid StreamTransformState.init chunks).2.message_started = true :=
    transformChunks_started mid _ chunks hne
  unfold streamWellFormed grammarAccepts fullStream
  rw [scanEvents_append, hscan]
  by_cases hse : (transformChunks mid StreamTransformState.init chunks).2.stream_ended = true
  · have hfin : finalizeStream (transformChunks mid StreamTransformState.init chunks).2 = [] := by
      simp [finalizeStream, hse]
    rw [hfin]
    show ss'.stopped = true
    exact hInv.stopped.trans hse
  · have hse' : (transformChunks mid StreamTransformState.init chunks).2.stream_ended = false := by
      simpa using hse
    have hfin : finalizeStream (transformChunks mid StreamTransformState.init chunks).2 =
        (if (transformChunks mid StreamTransformState.init chunks).2.text_block_open then
          [SseEvent.blockStop 0] else [])
        ++ (transformChunks mid StreamTransformState.init chunks).2.tool_blocks.map
            (fun p => SseEvent.blockStop p.2)
        ++ [SseEvent.messageDelta "end_turn" none, SseEvent.messageStop] := by
      simp [finalizeStream, hms, hse']
    have hfinal := scan_finish
      ((if (transformChunks mid StreamTransformState.init chunks).2.text_block_open then [0]
        else [])
        ++ (transformChunks mid StreamTransformState.init chunks).2.tool_blocks.map
            (fun p : Nat × Nat => p.2))
      ss' "end_turn" none (hInv.started.trans hms) (hInv.ended.trans hse')
      (hInv.stopped.trans hse') (hInv.blocks hse')
    rw [hfin, closeEvents_as_map]
    show (match scanEvents false ss'
        (((if (transformChunks mid StreamTransformState.init chunks).2.text_block_open then [0]
            else [])
          ++ (transformChunks mid StreamTransformState.init chunks).2.tool_blocks.map
              (fun p : Nat × Nat => p.2)).map SseEvent.blockStop
          ++ [SseEvent.messageDelta "end_turn" none, SseEvent.messageStop]) with
      | some ss => ss.stopped
      | none => false) = true
    rw [hfinal]

/-- Witness for C2 (amended) at a concrete stream: one text chunk, one
`finish_reason` chunk. -/
theorem stream_grammar_amended_witness :
    fixtureStreamChunks ≠ [] ∧ goodChunks fixtureStreamChunks = true ∧
    streamWellFormed (fullStream "msg" fixtureStreamChunks) = true := by
  refine ⟨by simp [fixtureStreamChunks], by decide, ?_⟩
  exact stream_grammar_amended "msg" fixtureStreamChunks (by simp [fixtureStreamChunks])
    (by decide)

end CCMux
